import Mathlib

/-!
Verification of the normalization analyzer of the repository
`NormalizacionAutomatizada` (schema-normalization analyzer and migration
planner).  The Python sources `analysis.py`, `generators.py` and
`scripts/normalizer.py` are shallowly embedded below: strings are `List Char`,
a database cell is `Option (List Char)` (`none` = SQL NULL) and a row is a
total function from column names to cells.  The SQL queries issued by
`has_fd_sql` / `is_unique_sql` are embedded by their SQL semantics
(`GROUP BY` treats NULL determinant values as equal to each other, and
`COUNT(DISTINCT x)` never counts NULL).
-/

/-- Column and attribute names, as Python strings. -/
abbrev Name := List Char

/-- A database cell: `none` models SQL NULL / pandas NaN. -/
abbrev Val := Option (List Char)

/-- A table row: total assignment of a cell to every column name. -/
abbrev Row := Name → Val

/-! ## Small string utilities shared by the embedding -/

/-- Whitespace characters stripped by Python `str.strip()` (ASCII subset). -/
def isPySpace (c : Char) : Bool :=
  c == ' ' || c == '\t' || c == '\n' || c == '\r' || c == '\x0b' || c == '\x0c'

/-- Python `str.strip()`: drop leading and trailing whitespace. -/
def pyStrip (s : List Char) : List Char :=
  ((s.dropWhile isPySpace).reverse.dropWhile isPySpace).reverse

/-- Python `str.lower()` (ASCII subset). -/
def pyLower (s : List Char) : List Char := s.map Char.toLower

/-- Does `needle` occur at the start of `hay`? (plain Boolean test). -/
def isPre : List Char → List Char → Bool
  | [], _ => true
  | _ :: _, [] => false
  | a :: as, b :: bs => a == b && isPre as bs

/-- Does `needle` occur anywhere inside `hay` as a contiguous substring?
Embeds Python `needle in hay`. -/
def hasSub (needle : List Char) : List Char → Bool
  | [] => needle.isEmpty
  | c :: rest => isPre needle (c :: rest) || hasSub needle rest

/-- `sep.join parts` as in Python. -/
def joinSep (sep : List Char) : List (List Char) → List Char
  | [] => []
  | [p] => p
  | p :: q :: rest => p ++ sep ++ joinSep sep (q :: rest)

/-- Auxiliary scanner for `splitOnSub`: `acc` holds the current piece
reversed; the fuel argument bounds the remaining input (it never runs out
when started at the input's length, keeping the recursion structural). -/
def splitOnSubAux (sep : List Char) : Nat → List Char → List Char → List (List Char)
  | 0, s, acc => [acc.reverse ++ s]
  | _ + 1, [], acc => [acc.reverse]
  | fuel + 1, c :: rest, acc =>
    if isPre sep (c :: rest) then
      acc.reverse :: splitOnSubAux sep fuel (List.drop (sep.length - 1) rest) []
    else
      splitOnSubAux sep fuel rest (c :: acc)

/-- Python `hay.split(sep)` for a non-empty separator `sep`. -/
def splitOnSub (sep hay : List Char) : List (List Char) :=
  if sep = [] then [hay] else splitOnSubAux sep hay.length hay []

/-- Lexicographic comparison of strings by code point (Python `<=` on str),
used to embed Python `sorted`. -/
def lexLe : List Char → List Char → Bool
  | [], _ => true
  | _ :: _, [] => false
  | a :: as, b :: bs =>
    if a.val < b.val then true
    else if b.val < a.val then false
    else lexLe as bs

/-- Stable insertion into a lexicographically sorted list. -/
def insertSorted (x : List Char) : List (List Char) → List (List Char)
  | [] => [x]
  | y :: ys => if lexLe x y then x :: y :: ys else y :: insertSorted x ys

/-- Python `sorted` on a list of strings. -/
def sortNames (l : List (List Char)) : List (List Char) :=
  l.foldr insertSorted []

/-- Python `sorted(set(l))`: deduplicate (keeping first occurrences) and
sort. -/
def sortedSet (l : List Name) : List Name :=
  sortNames (l.foldl (fun acc a => if a ∈ acc then acc else acc ++ [a]) [])

/-- Insertion-ordered grouping, as a Python dict of lists built with
`setdefault(key, []).append(v)`: append `v` to the entry for `k`,
creating the entry at the end when `k` is new. -/
def groupInsert {β : Type} (gs : List (Name × List β)) (k : Name) (v : β) :
    List (Name × List β) :=
  if gs.any (fun g => g.1 == k) then
    gs.map (fun g => if g.1 = k then (g.1, g.2 ++ [v]) else g)
  else gs ++ [(k, [v])]

/-- Insertion-ordered grouping keyed by a string tuple (Python dict keyed by
`tuple(...)`). -/
def groupInsertT {β : Type} (gs : List (List Name × List β)) (k : List Name)
    (v : β) : List (List Name × List β) :=
  if gs.any (fun g => g.1 == k) then
    gs.map (fun g => if g.1 = k then (g.1, g.2 ++ [v]) else g)
  else gs ++ [(k, [v])]

/-- Python dict assignment `d[k] = v` on an insertion-ordered association
list: overwrite in place when the key exists, append otherwise. -/
def dictInsert {β : Type} (d : List (Name × β)) (k : Name) (v : β) :
    List (Name × β) :=
  if d.any (fun p => p.1 == k) then
    d.map (fun p => if p.1 = k then (k, v) else p)
  else d ++ [(k, v)]

/-- Python `d.get(k)`: the value stored under `k`, if any. -/
def dictGet {β : Type} (d : List (Name × β)) (k : Name) : Option β :=
  (d.find? (fun p => p.1 == k)).map Prod.snd

/-- `itertools.combinations l r`: all size-`r` subsequences of `l` in
lexicographic order of positions. -/
def combinations {α : Type} : Nat → List α → List (List α)
  | 0, _ => [[]]
  | _ + 1, [] => []
  | r + 1, x :: xs => (combinations r xs).map (x :: ·) ++ combinations (r + 1) xs

/-! ## `analysis.py` — 1NF heuristics -/

/-- `analysis.SEP_CHARS`: characters that make a sampled value non-atomic. -/
def SEP_CHARS : List Char := [',', ';', '/', '|', '[', ']']

/-- `analysis.es_valor_atomico(val)`: every value is atomic except a non-null
string containing a separator character or whose stripped form starts with
a brace or a bracket. -/
def es_valor_atomico (val : Val) : Bool :=
  match val with
  | none => true
  | some s =>
    if SEP_CHARS.any (fun sep => s.contains sep) then false
    else if isPre ['{'] (pyStrip s) || isPre ['['] (pyStrip s) then false
    else true

/-- The match of Python `re.match(r"^(.*?)(\d+)$", a)`: when `a` ends in a
digit, the pair (prefix before the maximal trailing digit run, that digit
run); `none` otherwise. -/
def trailingDigits (a : List Char) : Option (List Char × List Char) :=
  let rev := a.reverse
  let ds := rev.takeWhile Char.isDigit
  if ds.isEmpty then none
  else some ((rev.dropWhile Char.isDigit).reverse, ds.reverse)

/-- The group key `m.group(1).strip().lower()` for an attribute that matches
the trailing-digit pattern. -/
def repeatedBase (a : List Char) : Option Name :=
  (trailingDigits a).map (fun m => pyLower (pyStrip m.1))

/-- `analysis.detectar_repetidos_nombrado(attrs)`: group the attribute names
that end in digits by their lowercased, stripped prefix, and keep the groups
with more than one member. -/
def detectar_repetidos_nombrado (attrs : List Name) : List (Name × List Name) :=
  let groups := attrs.foldl
    (fun gs a =>
      match repeatedBase a with
      | none => gs
      | some base => groupInsert gs base a) []
  groups.filter (fun g => 1 < g.2.length)

/-! ## `analysis.py` — SQL-backed FD oracle

`has_fd_sql` issues
`SELECT TOP 1 1 FROM (SELECT lhs, COUNT(DISTINCT rhs) FROM t [WHERE rhs IS
NOT NULL] GROUP BY lhs HAVING COUNT(DISTINCT rhs) > 1) z` and returns
`row is None`.  Its embedding below follows the SQL semantics: `GROUP BY`
does not discard rows whose determinant is NULL (NULL keys compare equal and
form their own group), and `COUNT(DISTINCT rhs)` counts distinct non-NULL
values only. -/

/-- Projection of a row onto a column tuple: the `GROUP BY` key. -/
def projT (cols : List Name) (r : Row) : List Val := cols.map r

/-- The rows actually aggregated by `has_fd_sql`: all of them, unless
`ignore_null_rhs` adds `WHERE rhs IS NOT NULL`. -/
def fdRows (rows : List Row) (rhs : Name) (ignore_null_rhs : Bool) : List Row :=
  if ignore_null_rhs then rows.filter (fun r => (r rhs).isSome) else rows

/-- The distinct `GROUP BY` keys of a row set. -/
def groupKeys (rows : List Row) (cols : List Name) : List (List Val) :=
  (rows.map (projT cols)).dedup

/-- The rows of one `GROUP BY` partition. -/
def groupRows (rows : List Row) (cols : List Name) (k : List Val) : List Row :=
  rows.filter (fun r => decide (projT cols r = k))

/-- `COUNT(DISTINCT rhs)` over one partition: distinct non-NULL values. -/
def distinctCount (rows : List Row) (cols : List Name) (k : List Val)
    (rhs : Name) : Nat :=
  (((groupRows rows cols k).filterMap (fun r => r rhs)).dedup).length

/-- `analysis.has_fd_sql(conn, schema, table, lhs_cols, rhs_col,
ignore_null_rhs)`: true iff no `GROUP BY lhs` partition holds more than one
distinct non-NULL `rhs` value. -/
def has_fd_sql (rows : List Row) (lhs_cols : List Name) (rhs_col : Name)
    (ignore_null_rhs : Bool) : Bool :=
  let rows2 := fdRows rows rhs_col ignore_null_rhs
  ((groupKeys rows2 lhs_cols).filter
      (fun k => 1 < distinctCount rows2 lhs_cols k rhs_col)).isEmpty

/-- `analysis.is_unique_sql(conn, schema, table, cols)`: true iff no
`GROUP BY cols` partition holds more than one row. -/
def is_unique_sql (rows : List Row) (cols : List Name) : Bool :=
  ((groupKeys rows cols).filter
      (fun k => 1 < (groupRows rows cols k).length)).isEmpty

/-! ## `analysis.py` — `analyze_table` -/

/-- The analysis parameters of `config.ANALYSIS_CFG`. -/
structure Cfg where
  sample_rows : Option Nat
  infer_singlecol_fds : Bool
  fd_check_nulls : Bool

/-- The live-database snapshot consumed by one analysis: physical columns,
primary-key columns, unique column sets (`sql_access.get_columns`,
`get_pk_columns`, `get_unique_sets`) and the table's rows. -/
structure Catalog where
  cols_sql : List Name
  pk_cols : List Name
  unique_sets : List (List Name)
  rows : List Row

/-- A declared functional dependency `(lhs, rhs)` from the structure CSV. -/
abbrev FD := List Name × List Name

/-- A 2NF (partial-dependency) violation record. -/
structure Viol2 where
  subset : List Name
  attr : Name
  explain : List Char
  deriving DecidableEq

/-- A 3NF violation record: a chain description and a reason. -/
structure Viol3 where
  chain : List Char
  reason : List Char
  deriving DecidableEq

/-- `sql_access.fetch_sample_rows`: `SELECT TOP limit cols FROM t`; the
`TOP` clause is added only when `limit` is truthy, so `0` and `None` both
fetch every row. -/
def fetch_sample_rows (rows : List Row) (cols : List Name)
    (limit : Option Nat) : List (List Val) :=
  (match limit with
   | some n => if n = 0 then rows else rows.take n
   | none => rows).map (fun r => cols.map r)

/-- The rows scanned by the 1NF atomicity check (`TOP sample_rows`, with
Python truthiness: a zero limit fetches everything). -/
def sampleRows (rows : List Row) (limit : Option Nat) : List Row :=
  match limit with
  | some n => if n = 0 then rows else rows.take n
  | none => rows

/-- The 1NF atomicity scan: for each checked column, the first sampled value
that is not atomic (`row[idx]` of the fetched sample is exactly `r c`). -/
def atomicIssues (rows : List Row) (cols_to_check : List Name)
    (limit : Option Nat) : List (Name × Val) :=
  if cols_to_check = [] then []
  else
    cols_to_check.filterMap (fun c =>
      (((sampleRows rows limit).map (fun r => r c)).find?
          (fun v => !es_valor_atomico v)).map (fun v => (c, v)))

/-- `validators._split_list`: split on commas, strip every piece, keep the
non-empty ones — each returned name is a stripped, non-empty string. -/
def split_list (s : List Char) : List Name :=
  ((splitOnSub [','] s).map pyStrip).filter (fun c => c ≠ [])

/-- `validators._parse_fd`, the parser `estructura_por_tabla` runs on every
declared-FD cell before `analyze_table` ever sees a name: reject a cell
without `->`; split at the first `->` and strip both sides; reject an empty
side; split each side on commas; reject an empty column list (the Python
`ValueError` paths become `none`). -/
def parse_fd (fd_raw : List Char) : Option (List Name × List Name) :=
  if hasSub ("->".data) fd_raw = false then none
  else
    let parts := splitOnSub ("->".data) fd_raw
    let lhs := pyStrip (parts.headD [])
    let rhs := pyStrip (joinSep ("->".data) parts.tail)
    if lhs = [] ∨ rhs = [] then none
    else
      let lhs_cols := split_list lhs
      let rhs_cols := split_list rhs
      if lhs_cols = [] ∨ rhs_cols = [] then none
      else some (lhs_cols, rhs_cols)

/-- The explanation string of a 2NF violation:
`"{'+'.join(subset)} -> {c} (dependencia parcial de la clave compuesta)"`. -/
def explain2fn (subset : List Name) (c : Name) : List Char :=
  joinSep ['+'] subset ++ (" -> ".data) ++ c ++
    " (dependencia parcial de la clave compuesta)".data

/-- The 2NF loop of `analyze_table`: for a composite key, test every proper
non-empty subset of the PK against every non-key checked column. -/
def violations2fn (rows : List Row) (pk_cols : List Name)
    (cols_to_check : List Name) (cfg : Cfg) : List Viol2 :=
  if 1 < pk_cols.length then
    let non_key_cols := cols_to_check.filter (fun c => c ∉ pk_cols)
    (List.range' 1 (pk_cols.length - 1)).flatMap (fun r =>
      (combinations r pk_cols).flatMap (fun subset =>
        non_key_cols.filterMap (fun c =>
          if has_fd_sql rows subset c (!cfg.fd_check_nulls) then
            some ⟨subset, c, explain2fn subset c⟩
          else none)))
  else []

/-- Python `set(a) == set(b)` on string lists. -/
def setEqB (a b : List Name) : Bool :=
  a.all (fun x => x ∈ b) && b.all (fun x => x ∈ a)

/-- The declared-FD chain string `"{'+'.join(lhs)} -> {y}"`. -/
def declChain (lhs : List Name) (y : Name) : List Char :=
  joinSep ['+'] lhs ++ (" -> ".data) ++ y

/-- The reason attached to a declared 3NF violation. -/
def declReason : List Char :=
  "Determinante no es superclave y RHS no primo (FD declarada)".data

/-- The inferred-FD chain string `"{'+'.join(pk_cols)} -> {a} -> {b}"`. -/
def inferChain (pk_cols : List Name) (a b : Name) : List Char :=
  joinSep ['+'] pk_cols ++ (" -> ".data) ++ a ++ (" -> ".data) ++ b

/-- The reason attached to an inferred 3NF violation. -/
def inferReason : List Char := "Dependencia transitiva inferida (1-col)".data

/-- One declared FD's contribution to the 3NF report: nothing when its
determinant is a superkey (set-equal to the PK or to a unique set), else one
violation per non-prime dependent. -/
def declContrib (pk_cols : List Name) (unique_sets : List (List Name))
    (prime_cols : List Name) (fd : FD) : List Viol3 :=
  let is_superkey := setEqB fd.1 pk_cols || unique_sets.any (fun u => setEqB fd.1 u)
  if is_superkey then []
  else (fd.2.filter (fun y => y ∉ prime_cols)).map
    (fun y => ⟨declChain fd.1 y, declReason⟩)

/-- The declared part of the 3NF report. -/
def declaredViolations (pk_cols : List Name) (unique_sets : List (List Name))
    (prime_cols : List Name) (fds : List FD) : List Viol3 :=
  fds.flatMap (declContrib pk_cols unique_sets prime_cols)

/-- The determinant/dependent pairs reported by the single-column transitive
inference: for each non-prime checked column `a` that is not single-column
unique, each other non-prime column `b` with `has_fd_sql([a], b)`. -/
def inferredPairs (rows : List Row) (pk_cols : List Name)
    (prime_cols : List Name) (cols_to_check : List Name) (cfg : Cfg) :
    List (Name × Name) :=
  if cfg.infer_singlecol_fds then
    let non_key_cols := cols_to_check.filter (fun c => c ∉ prime_cols)
    non_key_cols.flatMap (fun a =>
      if is_unique_sql rows [a] then []
      else
        non_key_cols.filterMap (fun b =>
          if b = a then none
          else if has_fd_sql rows [a] b true then
            if a ∉ pk_cols ∧ b ∉ prime_cols then some (a, b) else none
          else none))
  else []

/-- The inferred part of the 3NF report. -/
def inferredViolations (rows : List Row) (pk_cols : List Name)
    (prime_cols : List Name) (cols_to_check : List Name) (cfg : Cfg) :
    List Viol3 :=
  (inferredPairs rows pk_cols prime_cols cols_to_check cfg).map
    (fun p => ⟨inferChain pk_cols p.1 p.2, inferReason⟩)

/-- The violation report of `analysis.analyze_table`. -/
structure Report where
  schema : List Char
  table : List Char
  attrs_csv : List Name
  cols_sql : List Name
  pk_cols : List Name
  unique_sets : List (List Name)
  prime_cols : List Name
  atomic_issues : List (Name × Val)
  name_groups : List (Name × List Name)
  two_nf : List Viol2
  three_nf : List Viol3

/-- `analysis.analyze_table`: run the 1NF/2NF/3NF checks for one table.
`attrs` and `fds_declaradas` are the structure rows already merged by
`estructura_por_tabla` (attribute names there are stripped and non-empty);
`cat` is the live snapshot.  `prime_cols` is the set `PK ∪ unique sets`
(the Python code sorts it for display; only membership is ever used). -/
def analyze_table (schema table : List Char) (attrs : List Name)
    (fds_declaradas : List FD) (cat : Catalog) (cfg : Cfg) : Report :=
  let prime_cols := (cat.pk_cols ++ cat.unique_sets.flatten).dedup
  let cols_to_check := attrs.filter (fun c => c ∈ cat.cols_sql)
  { schema := schema
    table := table
    attrs_csv := attrs
    cols_sql := cat.cols_sql
    pk_cols := cat.pk_cols
    unique_sets := cat.unique_sets
    prime_cols := prime_cols
    atomic_issues := atomicIssues cat.rows cols_to_check cfg.sample_rows
    name_groups := detectar_repetidos_nombrado attrs
    two_nf := violations2fn cat.rows cat.pk_cols cols_to_check cfg
    three_nf :=
      declaredViolations cat.pk_cols cat.unique_sets prime_cols fds_declaradas ++
      inferredViolations cat.rows cat.pk_cols prime_cols cols_to_check cfg }

/-! ## `scripts/normalizer.py` — the pandas FD heuristic -/

/-- A pandas DataFrame: its column list and its rows. -/
structure Df where
  cols : List Name
  rows : List Row

/-- Largest element of a list of naturals (`Series.max`, 0 when empty). -/
def natMax (l : List Nat) : Nat := l.foldr Nat.max 0

/-- `scripts/normalizer.depends_on(df, determinant_cols, target)`: the pandas
heuristic.  It drops rows with NaN in a determinant or the target, requires a
non-empty remainder, requires every determinant group to hold exactly one
distinct target value, and additionally requires support: some group of size
at least 2. -/
def depends_on (df : Df) (determinant_cols : List Name) (target : Name) : Bool :=
  let needed := determinant_cols ++ [target]
  if needed.any (fun c => c ∉ df.cols) then false
  else
    let df2 := (df.rows.filter (fun r => determinant_cols.all (fun c => (r c).isSome))).filter
      (fun r => (r target).isSome)
    if df2.isEmpty then false
    else
      let keys := groupKeys df2 determinant_cols
      let unique_per_group :=
        natMax (keys.map (fun k => distinctCount df2 determinant_cols k target)) == 1
      let has_support :=
        2 ≤ natMax (keys.map (fun k => (groupRows df2 determinant_cols k).length))
      unique_per_group && decide has_support

/-! ## `generators.py` — normalization planner -/

/-- One structure-CSV row as the planner reads it (`tipos_por_tabla` uses
only the table, attribute and type cells). -/
structure ERow where
  tabla : List Char
  atributo : List Char
  tipo : List Char

/-- The default SQL type of `generators._fallback_type`. -/
def defaultType : List Char := "NVARCHAR(255)".data

/-- `generators.tipos_por_tabla(estructura_rows).get(tabla_csv, {})`: the
column-to-type map of one table (blank-typed attributes default). -/
def tiposFor (estructura_rows : List ERow) (tabla_csv : List Char) :
    List (Name × List Char) :=
  estructura_rows.foldl
    (fun d r =>
      let t := pyStrip r.tabla
      let a := pyStrip r.atributo
      let ty := pyStrip r.tipo
      if t ≠ [] ∧ a ≠ [] ∧ t = tabla_csv then
        dictInsert d a (if ty = [] then defaultType else ty)
      else d) []

/-- `generators._fallback_type(col, tipos_map)`. -/
def fallbackType (tipos : List (Name × List Char)) (col : Name) : List Char :=
  match dictGet tipos col with
  | some ty => if ty = [] then defaultType else ty
  | none => defaultType

/-- `generators._safe_name`: replace every character outside
`[A-Za-z0-9_]` by an underscore. -/
def safe_name (s : List Char) : List Char :=
  s.map (fun c => if c.isAlphanum || c == '_' then c else '_')

/-- The back-reference FK of a planned new table. -/
structure FkSpec where
  from_table : List Char
  from_cols : List Name
  to_table : List Char
  to_cols : List Name
  deriving DecidableEq

/-- One planned new table (`generators.build_plan`'s dict). -/
structure NewTable where
  source : List Char
  name : List Char
  cols : List (Name × List Char)
  pk : List Name
  fk_from_original : Option FkSpec
  move_from_original : List Name
  comment : List Char
  deriving DecidableEq

/-- A normalization plan. -/
structure Plan where
  new_tables : List NewTable
  drop_candidates : List Name
  notes : List (List Char)
  orig_cols : List Name
  deriving DecidableEq

/-- Append the new elements of `cols` to the drop-candidate list, as one
Python `for a in cols: if a not in d: d.append(a)` loop. -/
def addDrops (d : List Name) (cols : List Name) : List Name :=
  cols.foldl (fun d a => if a ∈ d then d else d ++ [a]) d

/-- The 1NF block of `build_plan`: one child table per repeated-name group,
keyed by the original PK plus an ordinal `n`. -/
def plan1nfTable (table_sql : List Char) (tipos : List (Name × List Char))
    (pk_cols : List Name) (g : Name × List Name) : NewTable :=
  let base := g.1
  let cols := g.2
  let first_ty := fallbackType tipos (cols.headD [])
  let value_col := if (base.reverse.dropWhile (· == '_')).reverse = [] then
      "valor".data
    else (base.reverse.dropWhile (· == '_')).reverse
  { source := "1NF".data
    name := table_sql ++ ['_'] ++ safe_name base
    cols := pk_cols.map (fun c => (c, fallbackType tipos c)) ++
      [("n".data, "INT".data), (value_col, first_ty)]
    pk := pk_cols ++ ["n".data]
    fk_from_original := none
    move_from_original := cols
    comment := "Grupos repetidos por nombre; requiere UNPIVOT o inserciones por filas (n).".data }

/-- Extend-style insertion-ordered grouping keyed by a string tuple
(`defaultdict(list)` with `.extend`). -/
def groupExtendT (gs : List (List Name × List Name)) (k : List Name)
    (vs : List Name) : List (List Name × List Name) :=
  if gs.any (fun g => g.1 == k) then
    gs.map (fun g => if g.1 = k then (g.1, g.2 ++ vs) else g)
  else gs ++ [(k, vs)]

/-- The `group_2fn` grouping of `build_plan`: 2NF violations grouped by
determinant subset, in first-occurrence order. -/
def group2fn (two_nf : List Viol2) : List (List Name × List Name) :=
  two_nf.foldl
    (fun gs item =>
      if item.subset ≠ [] ∧ item.attr ≠ [] then groupInsertT gs item.subset item.attr
      else gs) []

/-- One 2NF table of the plan. -/
def plan2nfTable (table_sql : List Char) (tipos : List (Name × List Char))
    (g : List Name × List Name) : NewTable :=
  let subset := g.1
  let attrs := g.2
  { source := "2NF".data
    name := table_sql ++ ['_'] ++ joinSep ['_'] (subset.map safe_name) ++ "_info".data
    cols := subset.map (fun c => (c, fallbackType tipos c)) ++
      (sortedSet attrs).map (fun a => (a, fallbackType tipos a))
    pk := subset
    fk_from_original := none
    move_from_original := sortedSet attrs
    comment := "Dependencias parciales detectadas (2FN). Considere UNIQUE en el subset para habilitar FK si aplica.".data }

/-- The chain parser at the top of `build_plan`'s 3NF loop: split the chain
on `->`, strip the parts, branch on whether the reason mentions a declared
FD; a declared chain must have two parts and non-empty `+`-separated sides,
an inferred one three parts with non-empty middle and last part. -/
def parse3fn (v : Viol3) :
    Option ((List Name × List Name) ⊕ (Name × Name)) :=
  let parts := (splitOnSub ("->".data) v.chain).map pyStrip
  if hasSub ("declarada".data) (pyLower v.reason) then
    match parts with
    | [lhs_raw, rhs_raw] =>
      let lhs := ((splitOnSub ['+'] lhs_raw).map pyStrip).filter (fun c => c ≠ [])
      let rhs := ((splitOnSub ['+'] rhs_raw).map pyStrip).filter (fun c => c ≠ [])
      if lhs ≠ [] ∧ rhs ≠ [] then some (.inl (lhs, rhs)) else none
    | _ => none
  else
    match parts with
    | [_, a, b] => if a ≠ [] ∧ b ≠ [] then some (.inr (a, b)) else none
    | _ => none

/-- The `group_3fn_decl` / `group_3fn_infer` dictionaries of `build_plan`. -/
def group3fn (three_nf : List Viol3) :
    List (List Name × List Name) × List (Name × List Name) :=
  three_nf.foldl
    (fun gs v =>
      match parse3fn v with
      | some (.inl (lhs, rhs)) => (groupExtendT gs.1 lhs rhs, gs.2)
      | some (.inr (a, b)) => (gs.1, groupInsert gs.2 a b)
      | none => gs) ([], [])

/-- One declared-3NF table of the plan. -/
def plan3fnDeclTable (table_sql : List Char) (tipos : List (Name × List Char))
    (g : List Name × List Name) : NewTable :=
  let lhs := g.1
  let name := table_sql ++ ['_'] ++ joinSep ['_'] (lhs.map safe_name) ++ "_dim".data
  { source := "3FN-decl".data
    name := name
    cols := lhs.map (fun c => (c, fallbackType tipos c)) ++
      (sortedSet g.2).map (fun y => (y, fallbackType tipos y))
    pk := lhs
    fk_from_original := some ⟨table_sql, lhs, name, lhs⟩
    move_from_original := sortedSet g.2
    comment := "FD declarada con determinante no-superclave.".data }

/-- One inferred-3NF table of the plan. -/
def plan3fnInferTable (table_sql : List Char) (tipos : List (Name × List Char))
    (g : Name × List Name) : NewTable :=
  let a := g.1
  let name := table_sql ++ ['_'] ++ safe_name a ++ "_dim".data
  { source := "3FN-infer".data
    name := name
    cols := (a, fallbackType tipos a) ::
      (sortedSet g.2).map (fun b => (b, fallbackType tipos b))
    pk := [a]
    fk_from_original := some ⟨table_sql, [a], name, [a]⟩
    move_from_original := sortedSet g.2
    comment := "Dependencia transitiva inferida A->B (1-col).".data }

/-- `generators.build_plan(schema, table_sql, tabla_csv, estructura_rows,
analysis_result)`: turn the violation report into a decomposition plan.
`tipos` is `tipos_por_tabla(estructura_rows).get(tabla_csv, {})`. -/
def build_plan (table_sql : List Char) (tipos : List (Name × List Char))
    (analysis_result : Report) : Plan :=
  let pk_cols := analysis_result.pk_cols
  let name_groups := analysis_result.name_groups
  let two_nf := analysis_result.two_nf
  let three_nf := analysis_result.three_nf
  -- 1NF
  let tables1 := name_groups.map (plan1nfTable table_sql tipos pk_cols)
  let drops1 := name_groups.foldl
    (fun d g => d ++ g.2.filter (fun c => c ∉ d)) []
  -- 2NF
  let g2 := group2fn two_nf
  let tables2 := g2.map (plan2nfTable table_sql tipos)
  let drops2 := g2.foldl (fun d g => addDrops d g.2) drops1
  -- 3NF
  let g3 := group3fn three_nf
  let tables3d := g3.1.map (plan3fnDeclTable table_sql tipos)
  let drops3d := g3.1.foldl (fun d g => addDrops d g.2) drops2
  let tables3i := g3.2.map (plan3fnInferTable table_sql tipos)
  let drops3i := g3.2.foldl (fun d g => addDrops d g.2) drops3d
  let new_tables := tables1 ++ tables2 ++ tables3d ++ tables3i
  { new_tables := new_tables
    drop_candidates := drops3i
    notes := if new_tables = [] then
        ["No se detectaron violaciones que requieran nuevas tablas.".data]
      else []
    orig_cols := sortNames (tipos.map Prod.fst) }

/-! ## `generators.py` — SQL renderer -/

/-- `sql_access.quote_ident`: wrap in brackets, doubling closing brackets. -/
def quote_ident (s : List Char) : List Char :=
  '[' :: (s.flatMap (fun c => if c = ']' then [']', ']'] else [c])) ++ [']']

/-- A natural number in decimal, as Python renders an `int`. -/
def natStr (n : Nat) : List Char := Nat.toDigits 10 n

/-- `{quote(schema)}.{quote(name)}`. -/
def qualQuoted (schema name : List Char) : List Char :=
  quote_ident schema ++ ['.'] ++ quote_ident name

/-- The `cols_lines` of the generated `CREATE TABLE`: one definition line per
column, plus the primary-key constraint line when a key is declared. -/
def createColLines (name : List Char) (cols : List (Name × List Char))
    (pk : List Name) : List (List Char) :=
  cols.map (fun p => "    ".data ++ quote_ident p.1 ++ [' '] ++ p.2) ++
    (if pk ≠ [] then
      ["    ,CONSTRAINT ".data ++ safe_name ("PK_".data ++ name) ++
        " PRIMARY KEY (".data ++ joinSep (", ".data) (pk.map quote_ident) ++ [')']]
    else [])

/-- The `CREATE TABLE` statement entry (one `sb.append`, embedded newlines
included). -/
def createEntry (qsch : List Char) (nt : NewTable) : List Char :=
  "  CREATE TABLE ".data ++ (qsch ++ ['.'] ++ quote_ident nt.name) ++ " (\n".data ++
    joinSep (",\n".data) (createColLines nt.name nt.cols nt.pk) ++ "\n  );".data

/-- The `INSERT` block of a non-1NF table: a real
`INSERT ... SELECT DISTINCT` when every new column exists in the original
column set, an explanatory comment naming the missing columns otherwise. -/
def insertBlock (schema table_sql : List Char) (orig_cols : List Name)
    (qsch : List Char) (nt : NewTable) : List (List Char) :=
  let qnew := qsch ++ ['.'] ++ quote_ident nt.name
  let qorig := qsch ++ ['.'] ++ quote_ident table_sql
  let cols_in_orig := (nt.cols.map Prod.fst).filter (fun c => c ∈ orig_cols)
  if cols_in_orig.length = nt.cols.length then
    ["INSERT INTO ".data ++ qnew ++ " (".data ++
       joinSep (", ".data) (nt.cols.map (fun p => quote_ident p.1)) ++ [')'],
     "SELECT DISTINCT ".data ++ joinSep (", ".data) (cols_in_orig.map quote_ident),
     "FROM ".data ++ qorig ++ [';']]
  else
    ["-- No se pudo generar INSERT automático para ".data ++ qnew ++ [':'],
     "-- Columnas no presentes en ".data ++ (schema ++ ['.'] ++ table_sql) ++
       ": ".data ++ joinSep (", ".data)
         (((nt.cols.map Prod.fst).filter (fun c => c ∉ orig_cols)).map quote_ident),
     "-- Ajuste manual del INSERT.".data]

/-- The commented UNPIVOT / CROSS APPLY template rendered for a 1NF table. -/
def insert1nfBlock (table_sql : List Char) (qsch : List Char) (nt : NewTable) :
    List (List Char) :=
  let qnew := qsch ++ ['.'] ++ quote_ident nt.name
  let qorig := qsch ++ ['.'] ++ quote_ident table_sql
  let moved := nt.move_from_original
  ["-- INSERT en ".data ++ qnew ++ ": requiere UNPIVOT/CROSS APPLY de columnas ".data ++
     joinSep (", ".data) (moved.map quote_ident),
   "-- Ejemplo (ajuste nombres):".data,
   "-- INSERT INTO ".data ++ qnew ++ " (".data ++
     joinSep (", ".data) (nt.cols.map (fun p => quote_ident p.1)) ++ [')'],
   "-- SELECT ".data ++ joinSep (", ".data) (nt.pk.map quote_ident) ++ ", v.n, v.valor".data,
   "-- FROM ".data ++ qorig,
   "-- CROSS APPLY (".data] ++
  [match moved with
   | [] => "--   VALUES (1, NULL)".data
   | m :: _ => "--   VALUES (1, ".data ++ quote_ident m ++ [')']] ++
  (moved.drop 1).enum.map (fun p =>
    "--        ,(".data ++ natStr (p.1 + 2) ++ ", ".data ++ quote_ident p.2 ++ [')']) ++
  ["-- ) AS v(n, valor);".data]

/-- The foreign-key block rendered when the plan carries a back-reference. -/
def fkBlock (table_sql : List Char) (qsch : List Char) (nt : NewTable)
    (fk : FkSpec) : List (List Char) :=
  let qnew := qsch ++ ['.'] ++ quote_ident nt.name
  let qorig := qsch ++ ['.'] ++ quote_ident table_sql
  let fk_name := safe_name ("FK_".data ++ table_sql ++ ['_'] ++ nt.name)
  ["IF NOT EXISTS (SELECT 1 FROM sys.foreign_keys WHERE name = N'".data ++ fk_name ++ "')".data,
   "BEGIN".data,
   "  ALTER TABLE ".data ++ qorig,
   "  ADD CONSTRAINT ".data ++ fk_name ++ " FOREIGN KEY (".data ++
     joinSep (", ".data) (fk.from_cols.map quote_ident) ++ [')'],
   "      REFERENCES ".data ++ qnew ++ " (".data ++
     joinSep (", ".data) (fk.to_cols.map quote_ident) ++ ");".data,
   "END;".data]

/-- The commented drop suggestions for the columns moved out of the
original table. -/
def movedBlock (table_sql : List Char) (qsch : List Char) (nt : NewTable) :
    List (List Char) :=
  if nt.move_from_original ≠ [] then
    "-- Sugerencia: eliminar columnas movidas del original (revise dependencias):".data ::
    nt.move_from_original.map (fun c =>
      "-- ALTER TABLE ".data ++ (qsch ++ ['.'] ++ quote_ident table_sql) ++
        " DROP COLUMN ".data ++ quote_ident c ++ [';'])
  else []

/-- All `sb` entries rendered for one planned table. -/
def renderNewTable (schema table_sql : List Char) (orig_cols : List Name)
    (nt : NewTable) : List (List Char) :=
  let qsch := quote_ident schema
  ["\n-- ---------- ".data ++ nt.source ++ " ----------".data] ++
  (if nt.comment ≠ [] then ["-- ".data ++ nt.comment] else []) ++
  ["IF OBJECT_ID(N'".data ++ (schema ++ ['.'] ++ nt.name) ++ "', N'U') IS NULL".data,
   "BEGIN".data,
   createEntry qsch nt,
   "END;".data] ++
  (if nt.source = "1NF".data then insert1nfBlock table_sql qsch nt
   else insertBlock schema table_sql orig_cols qsch nt) ++
  (match nt.fk_from_original with
   | some fk => fkBlock table_sql qsch nt fk
   | none => []) ++
  movedBlock table_sql qsch nt ++
  [[]]

/-- The header of the generated script. -/
def renderHeader (schema table_sql : List Char) : List (List Char) :=
  ["-- =====================================================".data,
   "-- Normalización propuesta para ".data ++ schema ++ ['.'] ++ table_sql,
   "-- Generado automáticamente — revise y ajuste según su modelo".data,
   "-- =====================================================".data,
   "BEGIN TRAN;".data,
   []]

/-- The commented drop-candidate summary. -/
def dropCandBlock (plan : Plan) : List (List Char) :=
  if plan.drop_candidates ≠ [] then
    ["-- Columnas candidatas a eliminar del original (ya listadas arriba por bloque):".data,
     "-- ".data ++ joinSep (", ".data) (plan.drop_candidates.map quote_ident),
     []]
  else []

/-- The rollback-by-default footer. -/
def renderFooter : List (List Char) :=
  ["\n-- Si todo es correcto:".data,
   "-- COMMIT;".data,
   "-- Si hay problemas:".data,
   "ROLLBACK;".data,
   []]

/-- The full `sb` list built by `generators.render_sql`. -/
def render_sb (schema table_sql : List Char) (plan : Plan) : List (List Char) :=
  renderHeader schema table_sql ++
  plan.new_tables.flatMap (renderNewTable schema table_sql plan.orig_cols) ++
  dropCandBlock plan ++
  plan.notes.map (fun n => "-- Nota: ".data ++ n) ++
  renderFooter

/-- `generators.render_sql(schema, table_sql, plan)`: the script text,
`"\n".join(sb)`. -/
def render_sql (schema table_sql : List Char) (plan : Plan) : List Char :=
  joinSep ['\n'] (render_sb schema table_sql plan)

/-! ## Claim-side predicates and concrete data -/

/-- The FD-oracle semantics stated by the specification (claim C1): rows with
a NULL determinant value are excluded from the partition, and with
`ignore_null_rhs` unset a NULL dependent counts as a distinct value.  This is
the claim's reading, kept separate from `has_fd_sql` (the code's SQL
semantics) to compare the two. -/
def has_fd_claimed (rows : List Row) (lhs_cols : List Name) (rhs_col : Name)
    (ignore_null_rhs : Bool) : Bool :=
  let rows0 := rows.filter (fun r => lhs_cols.all (fun c => (r c).isSome))
  let rows1 := if ignore_null_rhs then rows0.filter (fun r => (r rhs_col).isSome)
    else rows0
  (groupKeys rows1 lhs_cols).all (fun k =>
    let grp := groupRows rows1 lhs_cols k
    let cnt := if ignore_null_rhs then ((grp.filterMap (fun r => r rhs_col)).dedup).length
      else ((grp.map (fun r => r rhs_col)).dedup).length
    decide (cnt ≤ 1))

/-- A name acceptable to the chain round-trip of claim C10: non-empty, does
not start or end with whitespace, contains neither the substring `->` nor the
character `+`. -/
def headNonSpace (s : List Char) : Bool :=
  match s with
  | [] => false
  | c :: _ => !isPySpace c

/-- The cleanliness assumption of claim C10 on one attribute name. -/
abbrev fdName (s : List Char) : Prop :=
  headNonSpace s = true ∧ headNonSpace s.reverse = true ∧
    hasSub ("->".data) s = false ∧ '+' ∉ s

/-- Identifier sanity for the renderer claims: the string avoids the
character `M`, so it cannot take part in an occurrence of `COMMIT` or of
`DROP COLUMN` (both contain `M`). -/
abbrev Mfree (s : List Char) : Prop := 'M' ∉ s

/-- Renderer sanity for one planned table: every string rendered into an
uncommented statement avoids `M`. -/
abbrev ntMfree (nt : NewTable) : Prop :=
  Mfree nt.source ∧ Mfree nt.name ∧
  (∀ p ∈ nt.cols, Mfree p.1 ∧ Mfree p.2) ∧
  (∀ c ∈ nt.pk, Mfree c) ∧
  (match nt.fk_from_original with
   | none => True
   | some fk => (∀ c ∈ fk.from_cols, Mfree c) ∧ (∀ c ∈ fk.to_cols, Mfree c))

/-- Renderer sanity for a whole plan. -/
abbrev planMfree (schema table_sql : List Char) (plan : Plan) : Prop :=
  Mfree schema ∧ Mfree table_sql ∧ ∀ nt ∈ plan.new_tables, ntMfree nt

/-- The missing columns of a planned table relative to the original column
set (the complement of the renderer's `cols_in_orig`). -/
def missingCols (orig_cols : List Name) (nt : NewTable) : List Name :=
  (nt.cols.map Prod.fst).filter (fun c => c ∉ orig_cols)

/-- Safety of one uncommented script entry: the two-character probes `MM`
and `MN` never occur in it (`COMMIT` contains `MM` and `DROP COLUMN`
contains `MN`), and the entry does not end in `M`, so appending another
safe piece cannot create an occurrence across the seam. -/
abbrev okStr (s : List Char) : Prop :=
  hasSub ['M', 'M'] s = false ∧ hasSub ['M', 'N'] s = false ∧
    s.getLast? ≠ some 'M'

/-- A concrete row from an association list; absent columns read as NULL. -/
def mkRow (l : List (List Char × Val)) : Row :=
  fun c => ((l.find? (fun p => p.1 == c)).map Prod.snd).join

/-! Concrete data for the closed counterexample and witness theorems. -/

/-- Counterexample row for C1: NULL determinant, dependent `x`. -/
def cexRow1 : Row := mkRow [("B".data, some ("x".data))]

/-- Counterexample row for C1: NULL determinant, dependent `y`. -/
def cexRow2 : Row := mkRow [("B".data, some ("y".data))]

/-- One `Orders` row of the C2 scenario. -/
def ordersRow (oid pid d : List Char) : Row :=
  mkRow [("OrderId".data, some oid), ("ProductId".data, some pid),
         ("Discount".data, some d)]

/-- The sampled `Orders` data of the C2 scenario: `Discount` depends on
`ProductId` alone and on neither key column in isolation. -/
def ordersRows : List Row :=
  [ordersRow ("1".data) ("P1".data) ("10".data),
   ordersRow ("1".data) ("P2".data) ("20".data),
   ordersRow ("2".data) ("P1".data) ("10".data),
   ordersRow ("2".data) ("P2".data) ("20".data)]

/-- The `Orders` catalog snapshot: composite primary key. -/
def ordersCat : Catalog :=
  { cols_sql := ["OrderId".data, "ProductId".data, "Discount".data]
    pk_cols := ["OrderId".data, "ProductId".data]
    unique_sets := []
    rows := ordersRows }

/-- The default analysis configuration (`config.ANALYSIS_CFG`). -/
def ordersCfg : Cfg :=
  { sample_rows := some 50000, infer_singlecol_fds := true, fd_check_nulls := false }

/-- The declared attributes of `Orders`. -/
def ordersAttrs : List Name := ["OrderId".data, "ProductId".data, "Discount".data]

/-- The `Orders` violation report of the C2 scenario. -/
def ordersReport : Report :=
  analyze_table ("dbo".data) ("Orders".data) ordersAttrs [] ordersCat ordersCfg

/-- The structure rows of `Orders`. -/
def ordersERows : List ERow :=
  [⟨"Orders".data, "OrderId".data, "INT".data⟩,
   ⟨"Orders".data, "ProductId".data, "INT".data⟩,
   ⟨"Orders".data, "Discount".data, "INT".data⟩]

/-- The column-type map of `Orders`. -/
def ordersTipos : List (Name × List Char) := tiposFor ordersERows ("Orders".data)

/-- The decomposition plan of the C2 scenario. -/
def ordersPlan : Plan := build_plan ("Orders".data) ordersTipos ordersReport

/-- A single-column-key variant of the `Orders` catalog (witness for C3). -/
def ordersCatSingle : Catalog := { ordersCat with pk_cols := ["OrderId".data] }

/-- One row of the C5/C6 witness data. -/
def wRow (k x y u : List Char) : Row :=
  mkRow [("k".data, some k), ("x".data, some x), ("y".data, some y),
         ("u".data, some u)]

/-- C5 witness rows: `u` is unique-valued, `x` is repeated and determines
`y`. -/
def w5rows : List Row :=
  [wRow ("1".data) ("1".data) ("2".data) ("10".data),
   wRow ("2".data) ("1".data) ("2".data) ("20".data)]

/-- C5 witness catalog: single-column key `k`, no unique sets. -/
def w5cat : Catalog :=
  { cols_sql := ["k".data, "x".data, "y".data, "u".data]
    pk_cols := ["k".data]
    unique_sets := []
    rows := w5rows }

/-- C5 witness attributes. -/
def w5attrs : List Name := ["k".data, "x".data, "y".data, "u".data]

/-- C6 witness DataFrame: two rows with distinct determinant values. -/
def w6df : Df :=
  { cols := ["A".data, "B".data]
    rows := [mkRow [("A".data, some ("1".data)), ("B".data, some ("x".data))],
             mkRow [("A".data, some ("2".data)), ("B".data, some ("y".data))]] }

/-- C7 witness plan: one 3NF table with a back reference, `M`-free names. -/
def w7plan : Plan :=
  { new_tables :=
      [{ source := "3FN-infer".data
         name := "Orders_x_dim".data
         cols := [("x".data, "INT".data), ("y".data, "INT".data)]
         pk := ["x".data]
         fk_from_original := some ⟨"Orders".data, ["x".data], "Orders_x_dim".data, ["x".data]⟩
         move_from_original := ["y".data]
         comment := "Dependencia transitiva inferida A->B (1-col).".data }]
    drop_candidates := ["y".data]
    notes := []
    orig_cols := ["x".data, "y".data, "z".data] }

/-! ## General lemmas about the string and grouping utilities -/

/-- A one-character needle is a prefix exactly when it is the head. -/
theorem isPre_single {c : Char} {l : List Char} :
    isPre [c] l = true ↔ l.head? = some c := by
  cases l with
  | nil => simp [isPre]
  | cons b bs =>
    show ((c == b) && isPre [] bs) = true ↔ _
    simp only [isPre, Bool.and_true, beq_iff_eq, List.head?_cons,
      Option.some.injEq]
    exact eq_comm

/-- Every character of a prefix occurs in the string. -/
theorem isPre_mem {n h : List Char} (hp : isPre n h = true) :
    ∀ c ∈ n, c ∈ h := by
  induction n generalizing h with
  | nil => simp
  | cons a as ih =>
    cases h with
    | nil => simp [isPre] at hp
    | cons b bs =>
      simp only [isPre, Bool.and_eq_true, beq_iff_eq] at hp
      intro c hc
      rcases List.mem_cons.1 hc with rfl | hc
      · exact hp.1 ▸ List.mem_cons_self _ _
      · exact List.mem_cons_of_mem _ (ih hp.2 c hc)

/-- Every character of a substring occurs in the string. -/
theorem hasSub_mem {n h : List Char} (hs : hasSub n h = true) :
    ∀ c ∈ n, c ∈ h := by
  induction h with
  | nil =>
    intro c hc
    cases n with
    | nil => cases hc
    | cons a as => simp [hasSub] at hs
  | cons b bs ih =>
    simp only [hasSub, Bool.or_eq_true] at hs
    rcases hs with hs | hs
    · exact isPre_mem hs
    · exact fun c hc => List.mem_cons_of_mem _ (ih hs c hc)

/-- A string with a character missing from the haystack is no substring. -/
theorem hasSub_eq_false_of_not_mem {n h : List Char} {c : Char}
    (hc : c ∈ n) (hh : c ∉ h) : hasSub n h = false := by
  cases he : hasSub n h
  · rfl
  · exact absurd (hasSub_mem he c hc) hh

/-- Prefixes as explicit decompositions. -/
theorem isPre_iff_append {n h : List Char} :
    isPre n h = true ↔ ∃ t, h = n ++ t := by
  induction n generalizing h with
  | nil => simp [isPre]
  | cons a as ih =>
    cases h with
    | nil =>
      simp only [isPre, Bool.false_eq_true, false_iff]
      rintro ⟨t, ht⟩
      exact absurd ht (by simp)
    | cons b bs =>
      simp only [isPre, Bool.and_eq_true, beq_iff_eq, ih, List.cons_append,
        List.cons.injEq]
      constructor
      · rintro ⟨rfl, t, rfl⟩
        exact ⟨t, rfl, rfl⟩
      · rintro ⟨t, rfl, rfl⟩
        exact ⟨rfl, t, rfl⟩

/-- Substrings as explicit decompositions. -/
theorem hasSub_iff_append {n h : List Char} :
    hasSub n h = true ↔ ∃ x y, h = x ++ n ++ y := by
  induction h with
  | nil =>
    cases n with
    | nil => simp [hasSub]
    | cons a as =>
      simp only [hasSub, List.isEmpty_cons, Bool.false_eq_true, false_iff]
      rintro ⟨x, y, hxy⟩
      exact absurd hxy.symm (by simp)
  | cons b bs ih =>
    simp only [hasSub, Bool.or_eq_true, isPre_iff_append, ih]
    constructor
    · rintro (⟨t, ht⟩ | ⟨x, y, hxy⟩)
      · exact ⟨[], t, by simpa using ht⟩
      · exact ⟨b :: x, y, by simp [hxy]⟩
    · rintro ⟨x, y, hxy⟩
      cases x with
      | nil => exact Or.inl ⟨y, by simpa using hxy⟩
      | cons c cs =>
        simp only [List.cons_append, List.cons.injEq] at hxy
        exact Or.inr ⟨cs, y, hxy.2⟩

/-- Substring occurrence is transitive. -/
theorem hasSub_trans {a b c : List Char} (h1 : hasSub a b = true)
    (h2 : hasSub b c = true) : hasSub a c = true := by
  rw [hasSub_iff_append] at h1 h2 ⊢
  obtain ⟨x, y, rfl⟩ := h1
  obtain ⟨u, v, rfl⟩ := h2
  exact ⟨u ++ x, y ++ v, by simp⟩

/-- Occurrences of a two-character needle in an appended string: inside one
side or straddling the boundary. -/
theorem hasSub_pair_cons {a b c : Char} {t : List Char} :
    hasSub [a, b] (c :: t) = true ↔
      (a = c ∧ t.head? = some b) ∨ hasSub [a, b] t = true := by
  show (isPre [a, b] (c :: t) || hasSub [a, b] t) = true ↔ _
  have : isPre [a, b] (c :: t) = ((a == c) && isPre [b] t) := rfl
  rw [this]
  simp [isPre_single]

theorem hasSub_pair_append {a b : Char} {x y : List Char} :
    hasSub [a, b] (x ++ y) = true ↔
      hasSub [a, b] x = true ∨ hasSub [a, b] y = true ∨
        (x.getLast? = some a ∧ y.head? = some b) := by
  induction x with
  | nil => simp [hasSub]
  | cons c cs ih =>
    rw [List.cons_append, hasSub_pair_cons, hasSub_pair_cons, ih]
    cases cs with
    | nil =>
      simp only [List.nil_append, List.head?_nil, List.getLast?_singleton]
      constructor
      · rintro (⟨rfl, hh⟩ | h | h | ⟨hl, hh⟩)
        · exact Or.inr (Or.inr ⟨rfl, hh⟩)
        · exact Or.inl (Or.inr h)
        · exact Or.inr (Or.inl h)
        · cases hl
      · rintro ((⟨-, hh⟩ | h) | h | ⟨hl, hh⟩)
        · cases hh
        · exact Or.inr (Or.inl h)
        · exact Or.inr (Or.inr (Or.inl h))
        · exact Or.inl ⟨(Option.some_inj.1 hl).symm, hh⟩
    | cons e es =>
      simp only [List.cons_append, List.head?_cons, List.getLast?_cons_cons]
      tauto

/-- A list deduplicates to at most one element exactly when all its elements
are equal. -/
theorem dedup_length_le_one {κ : Type} [DecidableEq κ] {l : List κ} :
    l.dedup.length ≤ 1 ↔ ∀ a ∈ l, ∀ b ∈ l, a = b := by
  constructor
  · intro h a ha b hb
    have ha2 : a ∈ l.dedup := List.mem_dedup.2 ha
    have hb2 : b ∈ l.dedup := List.mem_dedup.2 hb
    rcases hd : l.dedup with - | ⟨x, - | ⟨y, t⟩⟩
    · rw [hd] at ha2
      cases ha2
    · rw [hd] at ha2 hb2
      rw [List.mem_singleton.1 ha2, List.mem_singleton.1 hb2]
    · rw [hd] at h
      simp at h
  · intro h
    rcases hd : l.dedup with - | ⟨x, - | ⟨y, t⟩⟩
    · simp
    · simp
    · exfalso
      have hnd := l.nodup_dedup
      rw [hd] at hnd
      have hx : x ∈ l := by
        refine List.mem_dedup.1 ?_
        rw [hd]
        exact List.mem_cons_self _ _
      have hy : y ∈ l := by
        refine List.mem_dedup.1 ?_
        rw [hd]
        exact List.mem_cons_of_mem _ (List.mem_cons_self _ _)
      have hxy := h x hx y hy
      simp [hxy] at hnd

/-- When the projections of a list are distinct, every projection class has
at most one member. -/
theorem filter_key_length_le_one {α κ : Type} [DecidableEq κ] {l : List α}
    {f : α → κ} (h : (l.map f).Nodup) (k : κ) :
    (l.filter (fun x => decide (f x = k))).length ≤ 1 := by
  induction l with
  | nil => simp
  | cons x t ih =>
    simp only [List.map_cons, List.nodup_cons] at h
    rw [List.filter_cons]
    by_cases hx : f x = k
    · have ht : t.filter (fun x => decide (f x = k)) = [] := by
        refine List.filter_eq_nil_iff.2 ?_
        intro y hy
        simp only [decide_eq_true_eq]
        intro hyk
        refine h.1 ?_
        have hfx : f x = f y := by rw [hx, hyk]
        rw [hfx]
        exact List.mem_map_of_mem f hy
      simp [hx, ht]
    · simpa [hx] using ih h.2

/-- Converse of `filter_key_length_le_one`: when every projection class has
at most one member, the projections are distinct. -/
theorem nodup_of_filter_key {α κ : Type} [DecidableEq κ] {l : List α}
    {f : α → κ}
    (h : ∀ k ∈ (l.map f).dedup, (l.filter (fun x => decide (f x = k))).length ≤ 1) :
    (l.map f).Nodup := by
  induction l with
  | nil => simp
  | cons x t ih =>
    simp only [List.map_cons, List.nodup_cons]
    constructor
    · intro hmem
      obtain ⟨y, hy, hfy⟩ := List.mem_map.1 hmem
      have hk : f x ∈ ((x :: t).map f).dedup := by
        exact List.mem_dedup.2 (List.mem_map_of_mem f (List.mem_cons_self _ _))
      have hfilter := h (f x) hk
      rw [List.filter_cons_of_pos (by simp)] at hfilter
      simp only [List.length_cons] at hfilter
      have hyf : y ∈ t.filter (fun z => decide (f z = f x)) :=
        List.mem_filter.2 ⟨hy, by simpa using hfy⟩
      have : t.filter (fun z => decide (f z = f x)) ≠ [] :=
        List.ne_nil_of_mem hyf
      have hlen : 1 ≤ (t.filter (fun z => decide (f z = f x))).length :=
        Nat.one_le_iff_ne_zero.2 (fun h0 => this (List.length_eq_zero.1 h0))
      omega
    · refine ih ?_
      intro k hk
      have hk2 : k ∈ ((x :: t).map f).dedup := by
        rw [List.mem_dedup] at hk ⊢
        exact List.mem_cons_of_mem _ hk
      have := h k hk2
      by_cases hxk : f x = k
      · rw [List.filter_cons_of_pos (by simp [hxk])] at this
        simp only [List.length_cons] at this
        omega
      · rw [List.filter_cons_of_neg (by simp [hxk])] at this
        exact this

/-- `is_unique_sql` answers exactly distinctness of the projected key
tuples: no `GROUP BY cols` class holds two rows. -/
theorem is_unique_sql_iff_nodup {rows : List Row} {cols : List Name} :
    is_unique_sql rows cols = true ↔ (rows.map (projT cols)).Nodup := by
  simp only [is_unique_sql, List.isEmpty_iff, List.filter_eq_nil_iff,
    decide_eq_true_eq, Nat.not_lt]
  constructor
  · intro h
    refine nodup_of_filter_key ?_
    intro k hk
    exact h k hk
  · intro h k _
    exact filter_key_length_le_one h k

/-- `has_fd_sql` answers exactly agreement of non-NULL dependent values on
rows with equal determinant tuples (over the rows kept by the
`ignore_null_rhs` filter). -/
theorem has_fd_sql_iff_agree {rows : List Row} {lhs : List Name} {rhs : Name}
    {ign : Bool} :
    has_fd_sql rows lhs rhs ign = true ↔
      ∀ r1 ∈ fdRows rows rhs ign, ∀ r2 ∈ fdRows rows rhs ign,
        projT lhs r1 = projT lhs r2 →
        ∀ v1 v2, r1 rhs = some v1 → r2 rhs = some v2 → v1 = v2 := by
  simp only [has_fd_sql, List.isEmpty_iff, List.filter_eq_nil_iff,
    decide_eq_true_eq, Nat.not_lt]
  constructor
  · intro h r1 h1 r2 h2 hproj v1 v2 hv1 hv2
    have hk : projT lhs r1 ∈ groupKeys (fdRows rows rhs ign) lhs :=
      List.mem_dedup.2 (List.mem_map_of_mem _ h1)
    have hle := h _ hk
    unfold distinctCount at hle
    have hall := dedup_length_le_one.1 hle
    refine hall v1 ?_ v2 ?_
    · exact List.mem_filterMap.2 ⟨r1, List.mem_filter.2 ⟨h1, by simp⟩, hv1⟩
    · exact List.mem_filterMap.2 ⟨r2, List.mem_filter.2 ⟨h2, by simp [hproj]⟩, hv2⟩
  · intro h k _
    unfold distinctCount
    refine dedup_length_le_one.2 ?_
    intro v1 hv1 v2 hv2
    obtain ⟨r1, hr1, hv1⟩ := List.mem_filterMap.1 hv1
    obtain ⟨r2, hr2, hv2⟩ := List.mem_filterMap.1 hv2
    have m1 := List.mem_filter.1 hr1
    have m2 := List.mem_filter.1 hr2
    have hp1 : projT lhs r1 = k := by simpa using m1.2
    have hp2 : projT lhs r2 = k := by simpa using m2.2
    exact h r1 m1.1 r2 m2.1 (hp1.trans hp2.symm) v1 v2 hv1 hv2

/-! ## Claim C8 — atomicity classifier -/

/-- C8: `es_valor_atomico` classifies `None` as atomic; it classifies a
string as non-atomic exactly when the string contains one of the characters
`, ; / | [ ]` or its whitespace-stripped form begins with `{` or `[`; in
particular `"a,b"` is non-atomic and `"a-b"` is atomic. -/
theorem spec_c8_atomic :
    es_valor_atomico none = true ∧
    (∀ s : List Char,
      es_valor_atomico (some s) = false ↔
        ((∃ c ∈ s, c ∈ SEP_CHARS) ∨ (pyStrip s).head? = some '{' ∨
          (pyStrip s).head? = some '[')) ∧
    es_valor_atomico (some ("a,b".data)) = false ∧
    es_valor_atomico (some ("a-b".data)) = true := by
  refine ⟨rfl, ?_, by decide, by decide⟩
  intro s
  show (if SEP_CHARS.any (fun sep => s.contains sep) then false
    else if isPre ['{'] (pyStrip s) || isPre ['['] (pyStrip s) then false
    else true) = false ↔ _
  by_cases h1 : SEP_CHARS.any (fun sep => s.contains sep) = true
  · rw [if_pos h1]
    refine iff_of_true rfl ?_
    obtain ⟨sep, hsep, hmem⟩ := List.any_eq_true.1 h1
    exact Or.inl ⟨sep, List.mem_of_elem_eq_true hmem, hsep⟩
  · rw [if_neg h1]
    by_cases h2 : (isPre ['{'] (pyStrip s) || isPre ['['] (pyStrip s)) = true
    · rw [if_pos h2]
      refine iff_of_true rfl ?_
      rcases (Bool.or_eq_true _ _).mp h2 with h | h
      · exact Or.inr (Or.inl (isPre_single.1 h))
      · exact Or.inr (Or.inr (isPre_single.1 h))
    · rw [if_neg h2]
      refine iff_of_false (by simp) ?_
      rintro (⟨c, hc, hcs⟩ | hh | hh)
      · exact absurd (List.any_eq_true.2 ⟨c, hcs, List.elem_eq_true_of_mem hc⟩) h1
      · exact absurd ((Bool.or_eq_true _ _).mpr (Or.inl (isPre_single.2 hh))) h2
      · exact absurd ((Bool.or_eq_true _ _).mpr (Or.inr (isPre_single.2 hh))) h2

/-! ## Claim C9 — repeated-name group detection -/

/-- The grouping step of `detectar_repetidos_nombrado` keeps members
consistent with their group key. -/
theorem groupInsert_base_inv {gs : List (Name × List Name)} {base a : Name}
    (h : ∀ g ∈ gs, ∀ x ∈ g.2, repeatedBase x = some g.1)
    (ha : repeatedBase a = some base) :
    ∀ g ∈ groupInsert gs base a, ∀ x ∈ g.2, repeatedBase x = some g.1 := by
  unfold groupInsert
  by_cases hk : gs.any (fun g => g.1 == base) = true
  · simp only [hk, if_true]
    intro g hg
    obtain ⟨g0, hg0, hup⟩ := List.mem_map.1 hg
    by_cases he : g0.1 = base
    · rw [if_pos he] at hup
      intro x hx
      rw [← hup] at hx ⊢
      simp only at hx ⊢
      rcases List.mem_append.1 hx with hx | hx
      · exact h g0 hg0 x hx
      · rw [List.mem_singleton.1 hx, he]
        exact ha
    · rw [if_neg he] at hup
      rw [← hup]
      exact h g0 hg0
  · simp only [hk, if_false]
    intro g hg
    rcases List.mem_append.1 hg with hg | hg
    · exact h g hg
    · rw [List.mem_singleton.1 hg]
      intro x hx
      rw [List.mem_singleton.1 hx]
      exact ha

/-- The fold of `detectar_repetidos_nombrado` keeps members consistent with
their group key. -/
theorem detectar_fold_inv (attrs : List Name) (gs0 : List (Name × List Name))
    (h0 : ∀ g ∈ gs0, ∀ x ∈ g.2, repeatedBase x = some g.1) :
    ∀ g ∈ attrs.foldl
        (fun gs a =>
          match repeatedBase a with
          | none => gs
          | some base => groupInsert gs base a) gs0,
      ∀ x ∈ g.2, repeatedBase x = some g.1 := by
  induction attrs generalizing gs0 with
  | nil => exact h0
  | cons a t ih =>
    rw [List.foldl_cons]
    cases ha : repeatedBase a with
    | none => exact ih gs0 (by simpa [ha] using h0)
    | some base =>
      refine ih _ ?_
      simp only [ha]
      exact groupInsert_base_inv h0 ha

/-- C9: `detectar_repetidos_nombrado` groups the attribute names ending in a
digit run by their lowercased, trimmed prefix and returns exactly the groups
with more than one member: `["Phone1","Phone2","Email"]` yields exactly
`("phone", ["Phone1","Phone2"])`, `["Phone1"]` yields nothing, and in every
returned group the members all match the group key with more than one
member. -/
theorem spec_c9_repeated :
    detectar_repetidos_nombrado ["Phone1".data, "Phone2".data, "Email".data] =
      [("phone".data, ["Phone1".data, "Phone2".data])] ∧
    detectar_repetidos_nombrado ["Phone1".data] = [] ∧
    (∀ attrs : List Name, ∀ g ∈ detectar_repetidos_nombrado attrs,
      1 < g.2.length ∧ ∀ a ∈ g.2, repeatedBase a = some g.1) := by
  refine ⟨by decide, by decide, ?_⟩
  intro attrs g hg
  unfold detectar_repetidos_nombrado at hg
  have hmem := List.mem_filter.1 hg
  refine ⟨by simpa using hmem.2, ?_⟩
  exact detectar_fold_inv attrs [] (by simp) g hmem.1

/-! ## Claim C1 — the FD oracle's null semantics -/

/-- C1 counterexample: on two rows whose determinant `A` is NULL and whose
dependents differ, the SQL query of `has_fd_sql` groups the NULL keys
together and reports a violation (`false`), while the claimed semantics
(rows with a NULL determinant excluded) reports the dependency as holding
(`true`).  The claimed iff is therefore false at this input. -/
theorem spec_c1_counterexample :
    has_fd_sql [cexRow1, cexRow2] ["A".data] ("B".data) true = false ∧
    has_fd_claimed [cexRow1, cexRow2] ["A".data] ("B".data) true = true := by
  constructor
  · decide
  · decide

/-- C1 amended: `has_fd_sql` returns true iff, over the rows kept by the
`ignore_null_rhs` filter and grouped by the determinant tuple with SQL
`GROUP BY` semantics (NULL keys compare equal and are not excluded), any two
rows of one group carrying non-NULL dependents agree — NULL dependents are
never counted as distinct values, for either setting of `ignore_null_rhs`;
and `is_unique_sql` returns true iff no two rows share their `cols` tuple,
i.e. the projected tuples are distinct. -/
theorem spec_c1_amended :
    (∀ (rows : List Row) (lhs : List Name) (rhs : Name) (ign : Bool),
      has_fd_sql rows lhs rhs ign = true ↔
        ∀ r1 ∈ fdRows rows rhs ign, ∀ r2 ∈ fdRows rows rhs ign,
          projT lhs r1 = projT lhs r2 →
          ∀ v1 v2, r1 rhs = some v1 → r2 rhs = some v2 → v1 = v2) ∧
    (∀ (rows : List Row) (cols : List Name),
      is_unique_sql rows cols = true ↔ (rows.map (projT cols)).Nodup) := by
  exact ⟨fun rows lhs rhs ign => has_fd_sql_iff_agree,
         fun rows cols => is_unique_sql_iff_nodup⟩

/-! ## Claim C6 — the two oracle implementations disagree -/

/-- Largest element bound for `natMax`. -/
theorem natMax_le {l : List Nat} {n : Nat} (h : ∀ x ∈ l, x ≤ n) :
    natMax l ≤ n := by
  induction l with
  | nil => exact Nat.zero_le n
  | cons x t ih =>
    show Nat.max x (natMax t) ≤ n
    exact Nat.max_le.2 ⟨h x (List.mem_cons_self _ _),
      ih (fun y hy => h y (List.mem_cons_of_mem _ hy))⟩

/-- C6: on a non-empty row set with no NULL among the determinant and target
columns in which every determinant tuple is distinct (each group has exactly
one row), the SQL-side oracle `has_fd_sql` reports the dependency as holding
— it has no support threshold — while the pandas-side `depends_on` returns
false, because its support condition requires a group of at least two rows.
The two embeddings of the oracle are therefore not equivalent. -/
theorem spec_c6_oracles_disagree (df : Df) (dets : List Name) (target : Name)
    (ign : Bool) (h1 : 0 < df.rows.length)
    (h2 : df.rows.all
      (fun r => (dets ++ [target]).all (fun c => (r c).isSome)) = true)
    (h3 : (df.rows.map (projT dets)).Nodup) :
    has_fd_sql df.rows dets target ign = true ∧
      depends_on df dets target = false := by
  have hsome : ∀ r ∈ df.rows, ∀ c ∈ dets ++ [target], (r c).isSome = true := by
    intro r hr c hc
    have := List.all_eq_true.1 h2 r hr
    exact List.all_eq_true.1 this c hc
  constructor
  · -- the SQL-side oracle holds: every group is a singleton
    rw [has_fd_sql_iff_agree]
    intro r1 hr1 r2 hr2 hproj v1 v2 hv1 hv2
    have hsub : List.Sublist (fdRows df.rows target ign) df.rows := by
      unfold fdRows
      cases ign
      · exact List.Sublist.refl _
      · exact List.filter_sublist _
    have hnd : ((fdRows df.rows target ign).map (projT dets)).Nodup :=
      (hsub.map (projT dets)).nodup h3
    -- two rows with equal projections inside a Nodup projection list are
    -- the same occurrence; count the class
    have hcnt := filter_key_length_le_one hnd (projT dets r1)
    have hm1 : r1 ∈ (fdRows df.rows target ign).filter
        (fun x => decide (projT dets x = projT dets r1)) :=
      List.mem_filter.2 ⟨hr1, by simp⟩
    have hm2 : r2 ∈ (fdRows df.rows target ign).filter
        (fun x => decide (projT dets x = projT dets r1)) :=
      List.mem_filter.2 ⟨hr2, by simp [hproj]⟩
    -- a list of length ≤ 1 containing r1 and r2 forces equal values
    rcases hfe : (fdRows df.rows target ign).filter
        (fun x => decide (projT dets x = projT dets r1)) with - | ⟨z, - | ⟨w, t⟩⟩
    · rw [hfe] at hm1
      cases hm1
    · rw [hfe] at hm1 hm2
      have e1 := List.mem_singleton.1 hm1
      have e2 := List.mem_singleton.1 hm2
      rw [e1] at hv1
      rw [e2] at hv2
      rw [hv1] at hv2
      exact Option.some_inj.1 hv2
    · rw [hfe] at hcnt
      simp at hcnt
  · -- the pandas-side heuristic fails for lack of support
    have hdf2 : ((df.rows.filter
        (fun r => dets.all (fun c => (r c).isSome))).filter
        (fun r => (r target).isSome)) = df.rows := by
      have ha : df.rows.filter (fun r => dets.all (fun c => (r c).isSome)) =
          df.rows := by
        refine List.filter_eq_self.2 ?_
        intro r hr
        exact List.all_eq_true.2 (fun c hc =>
          hsome r hr c (List.mem_append_left _ hc))
      rw [ha]
      refine List.filter_eq_self.2 ?_
      intro r hr
      exact hsome r hr target (List.mem_append_right _ (List.mem_singleton.2 rfl))
    have hne : df.rows.isEmpty = false := by
      cases hrows : df.rows with
      | nil => rw [hrows] at h1; simp at h1
      | cons r t => rfl
    have hsizes : natMax ((groupKeys df.rows dets).map
        (fun k => (groupRows df.rows dets k).length)) ≤ 1 := by
      refine natMax_le ?_
      intro x hx
      obtain ⟨k, -, hk⟩ := List.mem_map.1 hx
      rw [← hk]
      exact filter_key_length_le_one h3 k
    have hsup : decide (2 ≤ natMax ((groupKeys df.rows dets).map
        (fun k => (groupRows df.rows dets k).length))) = false := by
      simp only [decide_eq_false_iff_not]
      omega
    simp only [depends_on, hdf2, hne]
    by_cases hcols : ((dets ++ [target]).any (fun c => c ∉ df.cols)) = true
    · rw [if_pos hcols]
    · rw [if_neg hcols]
      simp only [Bool.false_eq_true, if_false, hsup, Bool.and_false]

/-- C6 witness: two rows with distinct determinant values, no nulls. -/
theorem spec_c6_witness :
    has_fd_sql w6df.rows ["A".data] ("B".data) true = true ∧
      depends_on w6df ["A".data] ("B".data) = false :=
  spec_c6_oracles_disagree w6df ["A".data] ("B".data) true (by decide)
    (by decide) (by decide)

/-! ## Claim C3 — single-column keys produce no 2NF output -/

/-- C3: with fewer than two primary-key columns, `analyze_table` reports an
empty `two_nf` list (the partial-dependency loop never runs), and
`build_plan` applied to that report emits no table with source `2NF`. -/
theorem spec_c3_single_pk (schema table : List Char) (attrs : List Name)
    (fds : List FD) (cat : Catalog) (cfg : Cfg)
    (table_sql : List Char) (tipos : List (Name × List Char))
    (hpk : cat.pk_cols.length < 2) :
    (analyze_table schema table attrs fds cat cfg).two_nf = [] ∧
    ∀ nt ∈ (build_plan table_sql tipos
        (analyze_table schema table attrs fds cat cfg)).new_tables,
      nt.source ≠ "2NF".data := by
  have h2nf : (analyze_table schema table attrs fds cat cfg).two_nf = [] := by
    show violations2fn cat.rows cat.pk_cols
      (attrs.filter (fun c => c ∈ cat.cols_sql)) cfg = []
    unfold violations2fn
    rw [if_neg (by omega)]
  refine ⟨h2nf, ?_⟩
  intro nt hnt
  simp only [build_plan] at hnt
  rw [h2nf] at hnt
  simp only [group2fn, List.foldl_nil, List.map_nil, List.nil_append,
    List.append_assoc, List.mem_append] at hnt
  rcases hnt with h | h | h
  · obtain ⟨g, -, rfl⟩ := List.mem_map.1 h
    intro he
    have he2 : ("1NF".data : List Char) = "2NF".data := he
    exact absurd he2 (by decide)
  · obtain ⟨g, -, rfl⟩ := List.mem_map.1 h
    intro he
    have he2 : ("3FN-decl".data : List Char) = "2NF".data := he
    exact absurd he2 (by decide)
  · obtain ⟨g, -, rfl⟩ := List.mem_map.1 h
    intro he
    have he2 : ("3FN-infer".data : List Char) = "2NF".data := he
    exact absurd he2 (by decide)

/-- C3 witness: the single-key `Orders` variant reports no 2NF violation. -/
theorem spec_c3_witness :
    (analyze_table ("dbo".data) ("Orders".data) ordersAttrs [] ordersCatSingle
      ordersCfg).two_nf = [] :=
  (spec_c3_single_pk ("dbo".data) ("Orders".data) ordersAttrs [] ordersCatSingle
    ordersCfg ("Orders".data) ordersTipos (by decide)).1

/-! ## Claim C4 — superkey determinants are exempt from 3NF-declared -/

/-- Python `set(a) == set(b)` agrees with `Finset` equality. -/
theorem setEqB_iff {a b : List Name} :
    setEqB a b = true ↔ a.toFinset = b.toFinset := by
  simp only [setEqB, Bool.and_eq_true, List.all_eq_true, decide_eq_true_eq]
  constructor
  · rintro ⟨h1, h2⟩
    apply Finset.ext
    intro x
    simp only [List.mem_toFinset]
    exact ⟨h1 x, h2 x⟩
  · intro h
    have hx : ∀ x : Name, x ∈ a ↔ x ∈ b := by
      intro x
      have := Finset.ext_iff.1 h x
      simpa [List.mem_toFinset] using this
    exact ⟨fun x hxa => (hx x).1 hxa, fun x hxb => (hx x).2 hxb⟩

/-- C4: a declared FD whose determinant equals, as a set, the primary-key
column set or some unique-constraint column set contributes no 3NF-declared
violation; in particular a table with that FD as its only declared one has
an empty declared contribution. -/
theorem spec_c4_superkey_exempt (pk : List Name) (usets : List (List Name))
    (prime : List Name) (fd : FD)
    (h : fd.1.toFinset = pk.toFinset ∨ ∃ u ∈ usets, fd.1.toFinset = u.toFinset) :
    declContrib pk usets prime fd = [] ∧
      declaredViolations pk usets prime [fd] = [] := by
  have hsk : (setEqB fd.1 pk || usets.any (fun u => setEqB fd.1 u)) = true := by
    rcases h with h | ⟨u, hu, h⟩
    · exact (Bool.or_eq_true _ _).mpr (Or.inl (setEqB_iff.2 h))
    · exact (Bool.or_eq_true _ _).mpr
        (Or.inr (List.any_eq_true.2 ⟨u, hu, setEqB_iff.2 h⟩))
  have hc : declContrib pk usets prime fd = [] := by
    simp only [declContrib, hsk]
    rw [if_pos trivial]
  exact ⟨hc, by simp [declaredViolations, hc]⟩

/-- C4 witness: the FD `A,B -> C` with primary key `(B, A)`. -/
theorem spec_c4_witness :
    declContrib ["B".data, "A".data] [] [] (["A".data, "B".data], ["C".data]) = [] ∧
    declaredViolations ["B".data, "A".data] [] []
      [(["A".data, "B".data], ["C".data])] = [] :=
  spec_c4_superkey_exempt ["B".data, "A".data] [] []
    (["A".data, "B".data], ["C".data]) (Or.inl (by decide))

/-! ## Claim C5 — candidate-key determinants are skipped by inference -/

/-- Every determinant reported by the transitive-inference loop failed the
single-column uniqueness probe: unique columns are skipped before any
dependency test. -/
theorem inferredPairs_not_unique {rows : List Row} {pk prime cols_to_check :
    List Name} {cfg : Cfg} :
    ∀ p ∈ inferredPairs rows pk prime cols_to_check cfg,
      is_unique_sql rows [p.1] = false := by
  intro p hp
  unfold inferredPairs at hp
  split at hp
  · obtain ⟨x, -, hpx⟩ := List.mem_flatMap.1 hp
    by_cases hxu : is_unique_sql rows [x] = true
    · rw [if_pos hxu] at hpx
      cases hpx
    · rw [if_neg hxu] at hpx
      obtain ⟨b, -, hpb⟩ := List.mem_filterMap.1 hpx
      have hfst : p.1 = x := by
        by_cases h1 : b = x
        · rw [if_pos h1] at hpb
          cases hpb
        · rw [if_neg h1] at hpb
          by_cases h2 : has_fd_sql rows [x] b true = true
          · rw [if_pos h2] at hpb
            by_cases h3 : x ∉ pk ∧ b ∉ prime
            · rw [if_pos h3] at hpb
              cases hpb
              rfl
            · rw [if_neg h3] at hpb
              cases hpb
          · rw [if_neg h2] at hpb
            cases hpb
      rw [hfst]
      exact Bool.eq_false_iff.mpr hxu
  · cases hp

/-- C5: when `is_unique_sql([a])` holds, `analyze_table` reports no inferred
transitive chain whose determinant is `a`: every violation carrying the
inferred reason stems from a pair of the inference loop, and that loop skips
unique columns before testing any dependency. -/
theorem spec_c5_candidate_key_guard (schema table : List Char)
    (attrs : List Name) (fds : List FD) (cat : Catalog) (cfg : Cfg) (a : Name)
    (hu : is_unique_sql cat.rows [a] = true) :
    ∀ v ∈ (analyze_table schema table attrs fds cat cfg).three_nf,
      v.reason = inferReason →
      ∃ p ∈ inferredPairs cat.rows cat.pk_cols
          ((cat.pk_cols ++ cat.unique_sets.flatten).dedup)
          (attrs.filter (fun c => c ∈ cat.cols_sql)) cfg,
        v.chain = inferChain cat.pk_cols p.1 p.2 ∧ p.1 ≠ a := by
  intro v hv hreason
  have hv2 : v ∈ declaredViolations cat.pk_cols cat.unique_sets
      ((cat.pk_cols ++ cat.unique_sets.flatten).dedup) fds ++
      inferredViolations cat.rows cat.pk_cols
        ((cat.pk_cols ++ cat.unique_sets.flatten).dedup)
        (attrs.filter (fun c => c ∈ cat.cols_sql)) cfg := hv
  rcases List.mem_append.1 hv2 with hd | hi
  · exfalso
    unfold declaredViolations at hd
    obtain ⟨fd, -, hfd⟩ := List.mem_flatMap.1 hd
    simp only [declContrib] at hfd
    split at hfd
    · cases hfd
    · obtain ⟨y, -, hy⟩ := List.mem_map.1 hfd
      have : v.reason = declReason := by rw [← hy]
      rw [hreason] at this
      exact absurd this (by decide)
  · obtain ⟨p, hp, hmk⟩ := List.mem_map.1 hi
    refine ⟨p, hp, ?_, ?_⟩
    · rw [← hmk]
    · intro hpa
      have := inferredPairs_not_unique p hp
      rw [hpa] at this
      rw [hu] at this
      cases this

/-- C5 witness: in the `w5` data the column `u` is unique-valued; the first
inferred violation of the report stems from a pair whose determinant is not
`u`. -/
theorem spec_c5_witness :
    ∃ p ∈ inferredPairs w5cat.rows w5cat.pk_cols
        ((w5cat.pk_cols ++ w5cat.unique_sets.flatten).dedup)
        (w5attrs.filter (fun c => c ∈ w5cat.cols_sql)) ordersCfg,
      (Viol3.mk (inferChain w5cat.pk_cols ("x".data) ("y".data))
          inferReason).chain = inferChain w5cat.pk_cols p.1 p.2 ∧
        p.1 ≠ "u".data :=
  spec_c5_candidate_key_guard ("dbo".data) ("T".data) w5attrs [] w5cat
    ordersCfg ("u".data) (by decide)
    (Viol3.mk (inferChain w5cat.pk_cols ("x".data) ("y".data)) inferReason)
    (by decide) rfl

/-! ## Claim C2 — the end-to-end `Orders` scenario -/

/-- C2 counterexample: in the exact claimed scenario (composite key
`(OrderId, ProductId)`, `Discount` provably dependent on `ProductId` alone,
the 2NF violation `{subset := [ProductId], attr := Discount}` reported), the
planner `build_plan` names its new table `Orders_ProductId_info` — no table
named `Orders_ProductId_det` is emitted (that name belongs to the separate
`scripts/normalizer.py` pipeline). -/
theorem spec_c2_counterexample :
    ordersReport.two_nf = [Viol2.mk ["ProductId".data] ("Discount".data)
        (explain2fn ["ProductId".data] ("Discount".data))] ∧
    ordersPlan.new_tables.map (fun nt => nt.name) =
      ["Orders_ProductId_info".data] ∧
    ¬ ∃ nt ∈ ordersPlan.new_tables, nt.name = "Orders_ProductId_det".data := by
  refine ⟨by decide, by decide, ?_⟩
  decide

/-- C2 amended: the scenario produces the 2NF violation
`{subset := [ProductId], attr := Discount}`, and `build_plan` emits one new
2NF-sourced table named `Orders_ProductId_info`, keyed by `ProductId`,
containing `Discount`, with `Discount` among the drop candidates for
`Orders`. -/
theorem spec_c2_amended :
    ordersReport.two_nf = [Viol2.mk ["ProductId".data] ("Discount".data)
        (explain2fn ["ProductId".data] ("Discount".data))] ∧
    (∃ nt ∈ ordersPlan.new_tables,
      nt.source = "2NF".data ∧ nt.name = "Orders_ProductId_info".data ∧
      nt.pk = ["ProductId".data] ∧
      ("Discount".data, "INT".data) ∈ nt.cols ∧
      nt.move_from_original = ["Discount".data]) ∧
    "Discount".data ∈ ordersPlan.drop_candidates := by
  refine ⟨by decide, ?_, by decide⟩
  decide

/-! ## Claim C10 — chain round-trip between detector and planner -/

/-- A two-character needle misses an appended string when it misses both
sides and cannot straddle the boundary. -/
theorem hasSub_pair_append_false {a b : Char} {x y : List Char}
    (hx : hasSub [a, b] x = false) (hy : hasSub [a, b] y = false)
    (hb : ¬(x.getLast? = some a ∧ y.head? = some b)) :
    hasSub [a, b] (x ++ y) = false := by
  cases he : hasSub [a, b] (x ++ y)
  · rfl
  · exfalso
    rcases hasSub_pair_append.1 he with h | h | h
    · rw [h] at hx
      cases hx
    · rw [h] at hy
      cases hy
    · exact hb h

/-- A substring of a suffix is a substring. -/
theorem hasSub_false_of_append {n u v : List Char}
    (h : hasSub n (u ++ v) = false) : hasSub n v = false := by
  cases he : hasSub n v
  · rfl
  · exfalso
    obtain ⟨x, z, rfl⟩ := hasSub_iff_append.1 he
    have : hasSub n (u ++ (x ++ n ++ z)) = true :=
      hasSub_iff_append.2 ⟨u ++ x, z, by simp⟩
    rw [h] at this
    cases this

/-- At no position of a needle-free string does the needle start. -/
theorem isPre_false_of_no_sub {n u v : List Char}
    (h : hasSub n (u ++ v) = false) : isPre n v = false := by
  have hv := hasSub_false_of_append h
  cases he : isPre n v
  · rfl
  · exfalso
    obtain ⟨t, rfl⟩ := isPre_iff_append.1 he
    have : hasSub n (n ++ t) = true := hasSub_iff_append.2 ⟨[], t, rfl⟩
    rw [hv] at this
    cases this

/-- The scanner ignores surplus fuel: any two sufficient fuels agree. -/
theorem splitOnSubAux_fuel {sep : List Char} :
    ∀ (f1 f2 : Nat) (s acc : List Char), s.length ≤ f1 → s.length ≤ f2 →
      splitOnSubAux sep f1 s acc = splitOnSubAux sep f2 s acc := by
  intro f1
  induction f1 with
  | zero =>
    intro f2 s acc h1 h2
    have hs : s = [] := List.length_eq_zero.1 (Nat.le_zero.1 h1)
    subst hs
    cases f2 with
    | zero => rfl
    | succ g => simp [splitOnSubAux]
  | succ f ih =>
    intro f2 s acc h1 h2
    cases s with
    | nil =>
      cases f2 with
      | zero => simp [splitOnSubAux]
      | succ g => rfl
    | cons c rest =>
      cases f2 with
      | zero =>
        simp only [List.length_cons, Nat.le_zero] at h2
        exact absurd h2 (Nat.succ_ne_zero _)
      | succ g =>
        show (if isPre sep (c :: rest) = true then
            acc.reverse :: splitOnSubAux sep f (List.drop (sep.length - 1) rest) []
          else splitOnSubAux sep f rest (c :: acc)) =
          (if isPre sep (c :: rest) = true then
            acc.reverse :: splitOnSubAux sep g (List.drop (sep.length - 1) rest) []
          else splitOnSubAux sep g rest (c :: acc))
        simp only [List.length_cons] at h1 h2
        by_cases hg : isPre sep (c :: rest) = true
        · rw [if_pos hg, if_pos hg]
          have hd := List.length_drop (sep.length - 1) rest
          congr 1
          refine ih g _ _ ?_ ?_ <;> omega
        · rw [if_neg hg, if_neg hg]
          refine ih g _ _ ?_ ?_ <;> omega

/-- Scanner lemma: when the separator starts nowhere inside `s1`, the
scanner passes over `s1`, splits at the explicit separator and goes on. -/
theorem splitOnSubAux_pass {sep s1 s2 : List Char} (hsep : sep ≠ [])
    (H : ∀ u v, s1 = u ++ v → v ≠ [] → isPre sep (v ++ sep ++ s2) = false) :
    ∀ fuel acc, (s1 ++ sep ++ s2).length ≤ fuel →
      splitOnSubAux sep fuel (s1 ++ sep ++ s2) acc =
        (acc.reverse ++ s1) :: splitOnSubAux sep s2.length s2 [] := by
  induction s1 with
  | nil =>
    intro fuel acc hlen
    cases hsp : sep with
    | nil => exact absurd hsp hsep
    | cons c cs =>
      simp only [List.nil_append] at hlen ⊢
      cases fuel with
      | zero =>
        rw [hsp] at hlen
        simp at hlen
      | succ f =>
        have hpre : isPre sep (sep ++ s2) = true := isPre_iff_append.2 ⟨s2, rfl⟩
        rw [hsp] at hpre hlen
        show (if isPre (c :: cs) (c :: (cs ++ s2)) = true then
            acc.reverse :: splitOnSubAux (c :: cs) f
              (List.drop ((c :: cs).length - 1) (cs ++ s2)) []
          else splitOnSubAux (c :: cs) f (cs ++ s2) (c :: acc)) = _
        rw [if_pos (by simpa using hpre)]
        have hdrop : List.drop ((c :: cs).length - 1) (cs ++ s2) = s2 := by
          simp only [List.length_cons, Nat.add_sub_cancel]
          exact List.drop_left cs s2
        rw [hdrop]
        have hfagree : splitOnSubAux (c :: cs) f s2 [] =
            splitOnSubAux (c :: cs) s2.length s2 [] := by
          refine splitOnSubAux_fuel f s2.length s2 [] ?_ (Nat.le_refl _)
          simp only [List.length_append, List.length_cons] at hlen
          omega
        rw [hfagree]
        simp
  | cons d t ih =>
    intro fuel acc hlen
    cases fuel with
    | zero =>
      simp at hlen
    | succ f =>
      have hguard := H [] (d :: t) rfl (by simp)
      have hneg : ¬ isPre sep (d :: (t ++ sep ++ s2)) = true := by
        intro hc
        have hc2 : isPre sep ((d :: t) ++ sep ++ s2) = true := hc
        rw [hguard] at hc2
        cases hc2
      show (if isPre sep (d :: (t ++ sep ++ s2)) = true then
          acc.reverse :: splitOnSubAux sep f
            (List.drop (sep.length - 1) (t ++ sep ++ s2)) []
        else splitOnSubAux sep f (t ++ sep ++ s2) (d :: acc)) = _
      rw [if_neg hneg]
      have H2 : ∀ u v, t = u ++ v → v ≠ [] →
          isPre sep (v ++ sep ++ s2) = false := by
        intro u v hu hv
        exact H (d :: u) v (by simp [hu]) hv
      have hlen2 : (t ++ sep ++ s2).length ≤ f := by
        simp only [List.length_append, List.length_cons] at hlen ⊢
        omega
      rw [ih H2 f (d :: acc) hlen2]
      simp

/-- Scanner lemma: a string free of the separator is returned whole. -/
theorem splitOnSubAux_free {sep s : List Char}
    (h : hasSub sep s = false) :
    ∀ fuel acc, splitOnSubAux sep fuel s acc = [acc.reverse ++ s] := by
  induction s with
  | nil =>
    intro fuel acc
    cases fuel with
    | zero => rfl
    | succ f => simp [splitOnSubAux]
  | cons c t ih =>
    intro fuel acc
    cases fuel with
    | zero => rfl
    | succ f =>
      have hguard : isPre sep (c :: t) = false := by
        have hx : hasSub sep ([] ++ (c :: t)) = false := by simpa using h
        exact isPre_false_of_no_sub hx
      show (if isPre sep (c :: t) = true then
          acc.reverse :: splitOnSubAux sep f (List.drop (sep.length - 1) t) []
        else splitOnSubAux sep f t (c :: acc)) = _
      rw [if_neg (by simp [hguard])]
      have ht : hasSub sep t = false := by
        have hx : hasSub sep ([c] ++ t) = false := by simpa using h
        exact hasSub_false_of_append hx
      rw [ih ht f (c :: acc)]
      simp

/-- The guard of `splitOnSubAux_pass` holds for the separator `->` in front
of any continuation when the passed-over string is `->`-free. -/
theorem arrow_guard {s1 s2 : List Char} (h : hasSub ("->".data) s1 = false) :
    ∀ u v, s1 = u ++ v → v ≠ [] →
      isPre ("->".data) (v ++ ("->".data) ++ s2) = false := by
  intro u v hu hv
  have harr : ("->".data : List Char) = ['-', '>'] := rfl
  cases v with
  | nil => exact absurd rfl hv
  | cons c w =>
    cases w with
    | nil =>
      rw [harr]
      show isPre ['-', '>'] (c :: ('-' :: '>' :: s2)) = false
      show ((('-' : Char) == c) && isPre ['>'] ('-' :: '>' :: s2)) = false
      have : isPre ['>'] ('-' :: '>' :: s2) = false := by
        show ((('>' : Char) == '-') && isPre [] ('>' :: s2)) = false
        rfl
      rw [this, Bool.and_false]
    | cons d w2 =>
      cases he : isPre ("->".data) ((c :: d :: w2) ++ ("->".data) ++ s2)
      · rfl
      · exfalso
        rw [harr] at he
        have h2 : (('-' : Char) = c ∧ ('>' : Char) = d) := by
          have e1 : isPre ['-', '>'] (c :: d :: (w2 ++ ['-', '>'] ++ s2)) = true := by
            simpa using he
          have e2 : ((('-' : Char) == c) && ((('>' : Char) == d) &&
              isPre [] (w2 ++ ['-', '>'] ++ s2))) = true := e1
          simp only [Bool.and_eq_true, beq_iff_eq] at e2
          exact ⟨e2.1, e2.2.1⟩
        have : hasSub ("->".data) s1 = true := by
          rw [harr]
          refine hasSub_iff_append.2 ⟨u, w2, ?_⟩
          rw [hu, ← h2.1, ← h2.2]
          simp
        rw [h] at this
        cases this

/-- The guard of `splitOnSubAux_pass` for the one-character separator `+`. -/
theorem plus_guard {s1 s2 : List Char} (h : '+' ∉ s1) :
    ∀ u v, s1 = u ++ v → v ≠ [] →
      isPre ['+'] (v ++ ['+'] ++ s2) = false := by
  intro u v hu hv
  cases v with
  | nil => exact absurd rfl hv
  | cons c w =>
    show ((('+' : Char) == c) && isPre [] (w ++ ['+'] ++ s2)) = false
    have hc : ('+' : Char) ≠ c := by
      intro he
      exact h (hu ▸ List.mem_append_right u (he ▸ List.mem_cons_self _ _))
    simp [hc]

/-- The separator `->` does not occur in a `+`-join of `->`-free names. -/
theorem hasSub_arrow_joinPlus {lhs : List Name}
    (h : ∀ n ∈ lhs, hasSub ("->".data) n = false) :
    hasSub ("->".data) (joinSep ['+'] lhs) = false := by
  have harr : ("->".data : List Char) = ['-', '>'] := rfl
  rw [harr]
  induction lhs with
  | nil => rfl
  | cons n rest ih =>
    cases rest with
    | nil =>
      have := h n (List.mem_cons_self _ _)
      rw [harr] at this
      exact this
    | cons m t =>
      show hasSub ['-', '>'] (n ++ ['+'] ++ joinSep ['+'] (m :: t)) = false
      have hn : hasSub ['-', '>'] n = false := by
        have := h n (List.mem_cons_self _ _)
        rw [harr] at this
        exact this
      have hx : hasSub ['-', '>'] (n ++ ['+']) = false := by
        refine hasSub_pair_append_false hn (by decide) ?_
        rintro ⟨-, hh⟩
        simp at hh
      have hy : hasSub ['-', '>'] (joinSep ['+'] (m :: t)) = false := by
        refine ih ?_
        intro q hq
        exact h q (List.mem_cons_of_mem _ hq)
      refine hasSub_pair_append_false hx hy ?_
      rintro ⟨hl, -⟩
      rw [List.getLast?_concat] at hl
      simp at hl

/-- A head that is not whitespace survives appending. -/
theorem headNonSpace_append {x y : List Char} (h : headNonSpace x = true) :
    headNonSpace (x ++ y) = true := by
  cases x with
  | nil => cases h
  | cons c t => exact h

/-- The `+`-join of non-empty names starts with the first name's head. -/
theorem joinPlus_headNS {lhs : List Name}
    (h : ∀ n ∈ lhs, headNonSpace n = true) (hne : lhs ≠ []) :
    headNonSpace (joinSep ['+'] lhs) = true := by
  cases lhs with
  | nil => exact absurd rfl hne
  | cons n rest =>
    cases rest with
    | nil => exact h n (List.mem_cons_self _ _)
    | cons m t =>
      exact headNonSpace_append (headNonSpace_append (h n (List.mem_cons_self _ _)))

/-- The `+`-join of non-empty names ends with the last name's last
character. -/
theorem joinPlus_lastNS {lhs : List Name}
    (h : ∀ n ∈ lhs, headNonSpace n.reverse = true) (hne : lhs ≠ []) :
    headNonSpace (joinSep ['+'] lhs).reverse = true := by
  induction lhs with
  | nil => exact absurd rfl hne
  | cons n rest ih =>
    cases rest with
    | nil => exact h n (List.mem_cons_self _ _)
    | cons m t =>
      show headNonSpace (n ++ ['+'] ++ joinSep ['+'] (m :: t)).reverse = true
      rw [List.reverse_append]
      refine headNonSpace_append ?_
      refine ih ?_ (by simp)
      intro q hq
      exact h q (List.mem_cons_of_mem _ hq)

/-- A string with a non-whitespace head is untouched by `dropWhile`. -/
theorem dropWhile_ps_self {s : List Char} (h : headNonSpace s = true) :
    s.dropWhile isPySpace = s := by
  cases s with
  | nil => rfl
  | cons c t =>
    have h2 : (!isPySpace c) = true := h
    have hc : isPySpace c = false := by simpa using h2
    rw [List.dropWhile_cons, if_neg (by simp [hc])]

/-- A trimmed non-empty string is a fixed point of `pyStrip`. -/
theorem pyStrip_self {s : List Char} (h1 : headNonSpace s = true)
    (h2 : headNonSpace s.reverse = true) : pyStrip s = s := by
  unfold pyStrip
  rw [dropWhile_ps_self h1, dropWhile_ps_self h2, List.reverse_reverse]

/-- `pyStrip` removes one trailing space from a trimmed string. -/
theorem pyStrip_concat_space {s : List Char} (h1 : headNonSpace s = true)
    (h2 : headNonSpace s.reverse = true) : pyStrip (s ++ [' ']) = s := by
  unfold pyStrip
  rw [dropWhile_ps_self (headNonSpace_append h1), List.reverse_append]
  show ((' ' :: s.reverse).dropWhile isPySpace).reverse = s
  rw [List.dropWhile_cons, if_pos (by decide), dropWhile_ps_self h2,
    List.reverse_reverse]

/-- `pyStrip` removes one leading space from a trimmed string. -/
theorem pyStrip_cons_space {s : List Char} (h1 : headNonSpace s = true)
    (h2 : headNonSpace s.reverse = true) : pyStrip (' ' :: s) = s := by
  unfold pyStrip
  rw [List.dropWhile_cons, if_pos (by decide), dropWhile_ps_self h1,
    dropWhile_ps_self h2, List.reverse_reverse]

/-- `pyStrip` removes one space on each side of a trimmed string. -/
theorem pyStrip_pad_both {s : List Char} (h1 : headNonSpace s = true)
    (h2 : headNonSpace s.reverse = true) : pyStrip (' ' :: (s ++ [' '])) = s := by
  unfold pyStrip
  rw [List.dropWhile_cons, if_pos (by decide),
    dropWhile_ps_self (headNonSpace_append h1), List.reverse_append]
  show ((' ' :: s.reverse).dropWhile isPySpace).reverse = s
  rw [List.dropWhile_cons, if_pos (by decide), dropWhile_ps_self h2,
    List.reverse_reverse]

/-- Splitting at an explicit separator occurrence after a separator-free
prefix. -/
theorem splitOnSub_pass {sep s1 s2 : List Char} (hsep : sep ≠ [])
    (H : ∀ u v, s1 = u ++ v → v ≠ [] → isPre sep (v ++ sep ++ s2) = false) :
    splitOnSub sep (s1 ++ sep ++ s2) = s1 :: splitOnSub sep s2 := by
  unfold splitOnSub
  rw [if_neg hsep, if_neg hsep]
  have := splitOnSubAux_pass hsep H (s1 ++ sep ++ s2).length [] (Nat.le_refl _)
  simpa using this

/-- Splitting at an explicit `->` after an `->`-free prefix. -/
theorem splitOnSub_arrow_append {x y : List Char}
    (hx : hasSub ("->".data) x = false) :
    splitOnSub ("->".data) (x ++ ("->".data) ++ y) =
      x :: splitOnSub ("->".data) y :=
  splitOnSub_pass (by decide) (arrow_guard hx)

/-- A separator-free string splits into itself. -/
theorem splitOnSub_free {sep s : List Char} (hsep : sep ≠ [])
    (h : hasSub sep s = false) : splitOnSub sep s = [s] := by
  unfold splitOnSub
  rw [if_neg hsep]
  simpa using splitOnSubAux_free h s.length []

/-- Splitting a `+`-join of `+`-free names recovers the names. -/
theorem splitOnSub_plus_join {lhs : List Name}
    (h : ∀ n ∈ lhs, '+' ∉ n) (hne : lhs ≠ []) :
    splitOnSub ['+'] (joinSep ['+'] lhs) = lhs := by
  induction lhs with
  | nil => exact absurd rfl hne
  | cons n rest ih =>
    cases rest with
    | nil =>
      show splitOnSub ['+'] n = [n]
      exact splitOnSub_free (by simp)
        (hasSub_eq_false_of_not_mem (List.mem_singleton.2 rfl)
          (h n (List.mem_cons_self _ _)))
    | cons m t =>
      show splitOnSub ['+'] (n ++ ['+'] ++ joinSep ['+'] (m :: t)) = _
      rw [splitOnSub_pass (by simp) (plus_guard (h n (List.mem_cons_self _ _)))]
      rw [ih (fun q hq => h q (List.mem_cons_of_mem _ hq)) (by simp)]

/-- Mapping `pyStrip` over already-trimmed names is the identity. -/
theorem map_pyStrip_self {l : List Name} (h : ∀ n ∈ l, pyStrip n = n) :
    l.map pyStrip = l := by
  induction l with
  | nil => rfl
  | cons n t ih =>
    rw [List.map_cons, h n (List.mem_cons_self _ _),
      ih (fun q hq => h q (List.mem_cons_of_mem _ hq))]

/-- A string with a non-whitespace head is non-empty. -/
theorem headNonSpace_ne_nil {s : List Char} (h : headNonSpace s = true) :
    s ≠ [] := by
  cases s with
  | nil => cases h
  | cons c t => simp

/-- The declared-violation chain built by `analyze_table` parses back in
`build_plan` to exactly its determinant list and dependent. -/
theorem parse3fn_decl {lhs : List Name} {y : Name}
    (hlhs : ∀ n ∈ lhs, fdName n) (hne : lhs ≠ []) (hy : fdName y) :
    parse3fn ⟨declChain lhs y, declReason⟩ = some (.inl (lhs, [y])) := by
  have harr : ("->".data : List Char) = ['-', '>'] := rfl
  obtain ⟨hyh, hyl, hyarr, hyplus⟩ := hy
  have hJarr : hasSub ("->".data) (joinSep ['+'] lhs) = false :=
    hasSub_arrow_joinPlus (fun n hn => (hlhs n hn).2.2.1)
  have hJh : headNonSpace (joinSep ['+'] lhs) = true :=
    joinPlus_headNS (fun n hn => (hlhs n hn).1) hne
  have hJl : headNonSpace (joinSep ['+'] lhs).reverse = true :=
    joinPlus_lastNS (fun n hn => (hlhs n hn).2.1) hne
  have hx : hasSub ("->".data) (joinSep ['+'] lhs ++ [' ']) = false := by
    rw [harr]
    rw [harr] at hJarr
    refine hasSub_pair_append_false hJarr (by decide) ?_
    rintro ⟨-, hh⟩
    simp at hh
  have hsy : hasSub ("->".data) (' ' :: y) = false := by
    rw [harr] at hyarr ⊢
    show hasSub ['-', '>'] ([' '] ++ y) = false
    refine hasSub_pair_append_false (by decide) hyarr ?_
    rintro ⟨hl, -⟩
    simp at hl
  have hch : declChain lhs y =
      (joinSep ['+'] lhs ++ [' ']) ++ ("->".data) ++ (' ' :: y) := by
    show joinSep ['+'] lhs ++ (" -> ".data) ++ y = _
    rw [show (" -> ".data : List Char) = [' ', '-', '>', ' '] from rfl, harr]
    simp
  have hsplit : splitOnSub ("->".data) (declChain lhs y) =
      [joinSep ['+'] lhs ++ [' '], ' ' :: y] := by
    rw [hch, splitOnSub_arrow_append hx, splitOnSub_free (by decide) hsy]
  have hyplusSub : hasSub ['+'] y = false :=
    hasSub_eq_false_of_not_mem (List.mem_singleton.2 rfl) hyplus
  simp only [parse3fn, hsplit, List.map_cons, List.map_nil,
    pyStrip_concat_space hJh hJl, pyStrip_cons_space hyh hyl]
  rw [if_pos (by decide)]
  rw [splitOnSub_plus_join (fun n hn => (hlhs n hn).2.2.2) hne,
    splitOnSub_free (by simp) hyplusSub]
  have hmapl : lhs.map pyStrip = lhs :=
    map_pyStrip_self (fun n hn => pyStrip_self (hlhs n hn).1 (hlhs n hn).2.1)
  have hmapy : ([y] : List Name).map pyStrip = [y] := by
    rw [List.map_cons, List.map_nil, pyStrip_self hyh hyl]
  rw [hmapl, hmapy]
  have hfill : lhs.filter (fun c => decide (c ≠ [])) = lhs := by
    refine List.filter_eq_self.2 ?_
    intro n hn
    simp [headNonSpace_ne_nil (hlhs n hn).1]
  have hfily : ([y] : List Name).filter (fun c => decide (c ≠ [])) = [y] := by
    refine List.filter_eq_self.2 ?_
    intro n hn
    rw [List.mem_singleton.1 hn]
    simp [headNonSpace_ne_nil hyh]
  rw [hfill, hfily]
  rw [if_pos ⟨hne, by simp⟩]

/-- The inferred-violation chain built by `analyze_table` parses back in
`build_plan` to exactly its determinant and dependent. -/
theorem parse3fn_infer {pk : List Name} {a b : Name}
    (hpk : ∀ n ∈ pk, hasSub ("->".data) n = false)
    (ha : fdName a) (hb : fdName b) :
    parse3fn ⟨inferChain pk a b, inferReason⟩ = some (.inr (a, b)) := by
  have harr : ("->".data : List Char) = ['-', '>'] := rfl
  obtain ⟨hah, hal, haarr, -⟩ := ha
  obtain ⟨hbh, hbl, hbarr, -⟩ := hb
  have hJarr : hasSub ("->".data) (joinSep ['+'] pk) = false :=
    hasSub_arrow_joinPlus hpk
  have hx1 : hasSub ("->".data) (joinSep ['+'] pk ++ [' ']) = false := by
    rw [harr]
    rw [harr] at hJarr
    refine hasSub_pair_append_false hJarr (by decide) ?_
    rintro ⟨-, hh⟩
    simp at hh
  have hx2 : hasSub ("->".data) (' ' :: (a ++ [' '])) = false := by
    rw [harr]
    rw [harr] at haarr
    show hasSub ['-', '>'] ([' '] ++ (a ++ [' '])) = false
    have hmid : hasSub ['-', '>'] (a ++ [' ']) = false := by
      refine hasSub_pair_append_false haarr (by decide) ?_
      rintro ⟨-, hh⟩
      simp at hh
    refine hasSub_pair_append_false (by decide) hmid ?_
    rintro ⟨hl, -⟩
    simp at hl
  have hx3 : hasSub ("->".data) (' ' :: b) = false := by
    rw [harr]
    rw [harr] at hbarr
    show hasSub ['-', '>'] ([' '] ++ b) = false
    refine hasSub_pair_append_false (by decide) hbarr ?_
    rintro ⟨hl, -⟩
    simp at hl
  have hch : inferChain pk a b =
      (joinSep ['+'] pk ++ [' ']) ++ ("->".data) ++
        ((' ' :: (a ++ [' '])) ++ ("->".data) ++ (' ' :: b)) := by
    show joinSep ['+'] pk ++ (" -> ".data) ++ a ++ (" -> ".data) ++ b = _
    rw [show (" -> ".data : List Char) = [' ', '-', '>', ' '] from rfl, harr]
    simp
  have hsplit : splitOnSub ("->".data) (inferChain pk a b) =
      [joinSep ['+'] pk ++ [' '], ' ' :: (a ++ [' ']), ' ' :: b] := by
    rw [hch, splitOnSub_arrow_append hx1]
    rw [splitOnSub_pass (by decide) (arrow_guard hx2)]
    rw [splitOnSub_free (by decide) hx3]
  simp only [parse3fn, hsplit, List.map_cons, List.map_nil,
    pyStrip_pad_both hah hal, pyStrip_cons_space hbh hbl]
  rw [if_neg (by decide)]
  rw [if_pos ⟨headNonSpace_ne_nil hah, headNonSpace_ne_nil hbh⟩]

/-- A non-empty string keeps its head across an append, so trimmedness of
an append transfers to its left part. -/
theorem headNonSpace_append_left {x y : List Char} (hx : x ≠ [])
    (h : headNonSpace (x ++ y) = true) : headNonSpace x = true := by
  cases x with
  | nil => exact absurd rfl hx
  | cons c t => exact h

/-- Dropping leading Python whitespace leaves nothing or a trimmed head. -/
theorem dropWhile_headNS (l : List Char) :
    l.dropWhile isPySpace = [] ∨ headNonSpace (l.dropWhile isPySpace) = true := by
  induction l with
  | nil => exact Or.inl rfl
  | cons c t ih =>
    rw [List.dropWhile_cons]
    split
    · exact ih
    · right
      rename_i hns
      have hc : isPySpace c = false := by simpa using hns
      show (!isPySpace c) = true
      rw [hc]
      rfl

/-- A non-empty `pyStrip` result is trimmed on both sides: this is the
invariant every name reaching `analyze_table` satisfies, because the
structure front end strips every attribute and FD name. -/
theorem pyStrip_headNS {s : List Char} (h : pyStrip s ≠ []) :
    headNonSpace (pyStrip s) = true ∧ headNonSpace (pyStrip s).reverse = true := by
  have hv : (pyStrip s).reverse = (s.dropWhile isPySpace).reverse.dropWhile isPySpace := by
    simp [pyStrip]
  have hvne : (s.dropWhile isPySpace).reverse.dropWhile isPySpace ≠ [] := by
    intro h0
    apply h
    show pyStrip s = []
    unfold pyStrip
    rw [h0]
    rfl
  have h2 : headNonSpace ((s.dropWhile isPySpace).reverse.dropWhile isPySpace) = true := by
    rcases dropWhile_headNS (s.dropWhile isPySpace).reverse with h0 | h0
    · exact absurd h0 hvne
    · exact h0
  have hsfx : ((s.dropWhile isPySpace).reverse.dropWhile isPySpace) <:+
      (s.dropWhile isPySpace).reverse := List.dropWhile_suffix isPySpace
  obtain ⟨w, hw⟩ := hsfx
  have hu : s.dropWhile isPySpace = pyStrip s ++ w.reverse := by
    have h3 := congrArg List.reverse hw
    rw [List.reverse_append, List.reverse_reverse] at h3
    rw [← hv, List.reverse_reverse] at h3
    exact h3.symm
  have hune : headNonSpace (s.dropWhile isPySpace) = true := by
    rcases dropWhile_headNS s with h0 | h0
    · rw [hu] at h0
      exact absurd (List.append_eq_nil.1 h0).1 h
    · exact h0
  refine ⟨@headNonSpace_append_left (pyStrip s) w.reverse h ?_, by rw [hv]; exact h2⟩
  rw [← hu]
  exact hune

/-- Every name `_split_list` emits is non-empty and trimmed. -/
theorem split_list_mem {s : List Char} :
    ∀ x ∈ split_list s,
      x ≠ [] ∧ headNonSpace x = true ∧ headNonSpace x.reverse = true := by
  intro x hx
  simp only [split_list, List.mem_filter, List.mem_map] at hx
  obtain ⟨⟨pc, hp, rfl⟩, hne⟩ := hx
  have hne2 : pyStrip pc ≠ [] := by simpa using hne
  exact ⟨hne2, (pyStrip_headNS hne2).1, (pyStrip_headNS hne2).2⟩

/-- Every name a successfully parsed FD cell carries is non-empty and
trimmed, and both sides of the FD are non-empty. -/
theorem parse_fd_names {fd_raw : List Char} {lhs rhs : List Name}
    (h : parse_fd fd_raw = some (lhs, rhs)) :
    lhs ≠ [] ∧ rhs ≠ [] ∧
      (∀ n ∈ lhs, n ≠ [] ∧ headNonSpace n = true ∧ headNonSpace n.reverse = true) ∧
      (∀ n ∈ rhs, n ≠ [] ∧ headNonSpace n = true ∧ headNonSpace n.reverse = true) := by
  simp only [parse_fd] at h
  split at h
  · exact Option.noConfusion h
  · split at h
    · exact Option.noConfusion h
    · split at h
      · exact Option.noConfusion h
      · rename_i hne
        rw [not_or] at hne
        simp only [Option.some.injEq, Prod.mk.injEq] at h
        obtain ⟨hl, hr⟩ := h
        subst hl
        subst hr
        exact ⟨hne.1, hne.2, split_list_mem, split_list_mem⟩

/-- C10: names reach `analyze_table`'s report only through the source's
stripping front end — declared-FD names through `_parse_fd`/`_split_list`
and attribute names through `strip()` — and for every such report, assuming
as the claim does that the names contain neither the substring `->` nor the
character `+`, the chain round-trip is exact: the declared chain
`L1+...+Lk -> y` has a reason mentioning `declarada` and parses back in
`build_plan` to exactly `([L1,...,Lk], [y])`, and the inferred chain
`pk -> a -> b` has a reason without `declarada` and parses back to exactly
`(a, b)`, so every `three_nf` entry lands in exactly one plan group. -/
theorem spec_c10_roundtrip (fd_raw : List Char) (lhs rhs : List Name) (y : Name)
    (pk : List Name) (a_raw b_raw : List Char)
    (hparse : parse_fd fd_raw = some (lhs, rhs)) (hy : y ∈ rhs)
    (hclean : ∀ n ∈ lhs ++ rhs, hasSub ("->".data) n = false ∧ '+' ∉ n)
    (hpk : ∀ n ∈ pk, hasSub ("->".data) n = false)
    (hane : pyStrip a_raw ≠ []) (hbne : pyStrip b_raw ≠ [])
    (hac : hasSub ("->".data) (pyStrip a_raw) = false ∧ '+' ∉ pyStrip a_raw)
    (hbc : hasSub ("->".data) (pyStrip b_raw) = false ∧ '+' ∉ pyStrip b_raw) :
    parse3fn ⟨declChain lhs y, declReason⟩ = some (.inl (lhs, [y])) ∧
    parse3fn ⟨inferChain pk (pyStrip a_raw) (pyStrip b_raw), inferReason⟩ =
      some (.inr (pyStrip a_raw, pyStrip b_raw)) ∧
    hasSub ("declarada".data) (pyLower declReason) = true ∧
    hasSub ("declarada".data) (pyLower inferReason) = false := by
  obtain ⟨hlne, hrne, hlp, hrp⟩ := parse_fd_names hparse
  have hfdl : ∀ n ∈ lhs, fdName n := fun n hn =>
    ⟨(hlp n hn).2.1, (hlp n hn).2.2, (hclean n (List.mem_append_left rhs hn)).1,
     (hclean n (List.mem_append_left rhs hn)).2⟩
  have hfdy : fdName y :=
    ⟨(hrp y hy).2.1, (hrp y hy).2.2, (hclean y (List.mem_append_right lhs hy)).1,
     (hclean y (List.mem_append_right lhs hy)).2⟩
  have hfa : fdName (pyStrip a_raw) :=
    ⟨(pyStrip_headNS hane).1, (pyStrip_headNS hane).2, hac.1, hac.2⟩
  have hfb : fdName (pyStrip b_raw) :=
    ⟨(pyStrip_headNS hbne).1, (pyStrip_headNS hbne).2, hbc.1, hbc.2⟩
  exact ⟨parse3fn_decl hfdl hlne hfdy, parse3fn_infer hpk hfa hfb,
    by decide, by decide⟩

/-- C10 witness: the raw FD cell `" Zip ,Region->City "` parses to the
stripped names `Zip`, `Region`, `City`, and the chains built from them and
from the stripped attribute cells `" x "` and `"y"` round-trip exactly. -/
theorem spec_c10_witness :
    parse3fn ⟨declChain ["Zip".data, "Region".data] ("City".data), declReason⟩ =
      some (.inl (["Zip".data, "Region".data], ["City".data])) ∧
    parse3fn ⟨inferChain ["K".data] (pyStrip (" x ".data)) (pyStrip ("y".data)),
        inferReason⟩ =
      some (.inr (pyStrip (" x ".data), pyStrip ("y".data))) ∧
    hasSub ("declarada".data) (pyLower declReason) = true ∧
    hasSub ("declarada".data) (pyLower inferReason) = false :=
  spec_c10_roundtrip (" Zip ,Region->City ".data) ["Zip".data, "Region".data]
    ["City".data] ("City".data) ["K".data] (" x ".data) ("y".data)
    (by decide) (by decide) (by decide) (by decide) (by decide) (by decide)
    (by decide) (by decide)

/-! ## Claim C7 — safety guarantees of the SQL renderer -/

/-- A prefix of a string is a prefix of any extension of it. -/
theorem isPre_append_of_isPre {p s t : List Char} (h : isPre p s = true) :
    isPre p (s ++ t) = true := by
  induction p generalizing s with
  | nil => rfl
  | cons a as ih =>
    cases s with
    | nil => simp [isPre] at h
    | cons b bs =>
      simp only [isPre, Bool.and_eq_true] at h
      rw [List.cons_append]
      show ((a == b) && isPre as (bs ++ t)) = true
      rw [Bool.and_eq_true]
      exact ⟨h.1, ih h.2⟩

/-- The empty entry is safe. -/
theorem okStr_nil : okStr [] := by decide

/-- An `M`-free string is a safe entry piece. -/
theorem okStr_of_Mfree {s : List Char} (h : Mfree s) : okStr s :=
  ⟨hasSub_eq_false_of_not_mem (List.mem_cons_self 'M' ['M']) h,
   hasSub_eq_false_of_not_mem (List.mem_cons_self 'M' ['N']) h,
   fun he => h (List.mem_of_getLast?_eq_some he)⟩

/-- Safety of entry pieces is preserved by concatenation: neither probe can
occur inside a piece nor straddle the seam, because no safe piece ends in
`M`. -/
theorem okStr_append {x y : List Char} (hx : okStr x) (hy : okStr y) :
    okStr (x ++ y) := by
  obtain ⟨hx1, hx2, hx3⟩ := hx
  obtain ⟨hy1, hy2, hy3⟩ := hy
  refine ⟨hasSub_pair_append_false hx1 hy1 (fun h => hx3 h.1),
    hasSub_pair_append_false hx2 hy2 (fun h => hx3 h.1), ?_⟩
  cases y with
  | nil => simpa using hx3
  | cons b t =>
    rw [List.getLast?_append_of_ne_nil x (List.cons_ne_nil b t)]
    exact hy3

/-- Joining safe pieces with a safe separator yields a safe string. -/
theorem okStr_join {sep : List Char} (hsep : okStr sep) :
    ∀ {l : List (List Char)}, (∀ x ∈ l, okStr x) → okStr (joinSep sep l) := by
  intro l
  induction l with
  | nil => intro h; exact okStr_nil
  | cons p rest ih =>
    intro h
    cases rest with
    | nil => exact h p (List.mem_cons_self p [])
    | cons q t =>
      show okStr ((p ++ sep) ++ joinSep sep (q :: t))
      exact okStr_append (okStr_append (h p (List.mem_cons_self p (q :: t))) hsep)
        (ih (fun x hx => h x (List.mem_cons_of_mem p hx)))

/-- `M`-freedom is preserved by concatenation. -/
theorem Mfree_append {x y : List Char} (hx : Mfree x) (hy : Mfree y) :
    Mfree (x ++ y) := fun h => (List.mem_append.1 h).elim hx hy

/-- Quoting an `M`-free identifier only adds brackets, staying `M`-free. -/
theorem Mfree_quote {s : List Char} (h : Mfree s) : Mfree (quote_ident s) := by
  intro hm
  simp only [quote_ident] at hm
  rcases List.mem_cons.1 hm with h1 | h2
  · exact absurd h1 (by decide)
  · rcases List.mem_append.1 h2 with h3 | h4
    · obtain ⟨c, hc, hfc⟩ := List.mem_flatMap.1 h3
      by_cases hcq : c = ']'
      · rw [if_pos hcq] at hfc
        exact absurd hfc (by decide)
      · rw [if_neg hcq, List.mem_singleton] at hfc
        subst hfc
        exact h hc
    · exact absurd h4 (by decide)

/-- `_safe_name` only keeps characters or replaces them by `_`, so it
preserves `M`-freedom. -/
theorem Mfree_safe {s : List Char} (h : Mfree s) : Mfree (safe_name s) := by
  intro hm
  obtain ⟨c, hc, hfc⟩ := List.mem_map.1 hm
  split at hfc
  · subst hfc
    exact h hc
  · exact absurd hfc (by decide)

/-- A filter and its negation split the length of a list. -/
theorem filter_split_length {α : Type} (p : α → Bool) :
    ∀ l : List α,
      (l.filter p).length + (l.filter (fun a => !(p a))).length = l.length := by
  intro l
  induction l with
  | nil => rfl
  | cons a t ih => cases hp : p a <;> simp [List.filter_cons, hp] <;> omega

/-- When every column of the planned table exists in the original column
set, the renderer emits the three-entry `INSERT ... SELECT DISTINCT ...
FROM` block projecting exactly the new table's columns. -/
theorem insertBlock_full_eq (schema table_sql : List Char) (orig : List Name)
    (qsch : List Char) (nt : NewTable)
    (h : ∀ c ∈ nt.cols.map Prod.fst, c ∈ orig) :
    insertBlock schema table_sql orig qsch nt =
      ["INSERT INTO ".data ++ (qsch ++ ['.'] ++ quote_ident nt.name) ++ " (".data ++
         joinSep (", ".data) (nt.cols.map (fun p => quote_ident p.1)) ++ [')'],
       "SELECT DISTINCT ".data ++
         joinSep (", ".data) ((nt.cols.map Prod.fst).map quote_ident),
       "FROM ".data ++ (qsch ++ ['.'] ++ quote_ident table_sql) ++ [';']] := by
  have hfil : (nt.cols.map Prod.fst).filter (fun c => decide (c ∈ orig)) =
      nt.cols.map Prod.fst :=
    List.filter_eq_self.2 (fun a ha => decide_eq_true (h a ha))
  simp only [insertBlock]
  rw [hfil, List.length_map, if_pos rfl]

/-- When some column of the planned table is missing from the original
column set, the renderer emits the three-comment block naming exactly the
missing columns. -/
theorem insertBlock_missing_eq (schema table_sql : List Char) (orig : List Name)
    (qsch : List Char) (nt : NewTable) (h : missingCols orig nt ≠ []) :
    insertBlock schema table_sql orig qsch nt =
      ["-- No se pudo generar INSERT automático para ".data ++
         (qsch ++ ['.'] ++ quote_ident nt.name) ++ [':'],
       "-- Columnas no presentes en ".data ++ (schema ++ ['.'] ++ table_sql) ++
         ": ".data ++ joinSep (", ".data) ((missingCols orig nt).map quote_ident),
       "-- Ajuste manual del INSERT.".data] := by
  have hsplit := filter_split_length (fun c => decide (c ∈ orig)) (nt.cols.map Prod.fst)
  have hmiss : (nt.cols.map Prod.fst).filter (fun a => !(decide (a ∈ orig))) =
      missingCols orig nt := by
    simp only [missingCols, decide_not]
  have hpos : 0 < (missingCols orig nt).length := List.length_pos.2 h
  have hlen : ¬ (((nt.cols.map Prod.fst).filter (fun c => decide (c ∈ orig))).length =
      nt.cols.length) := by
    rw [hmiss, List.length_map] at hsplit
    omega
  simp only [insertBlock]
  rw [if_neg hlen]
  simp only [missingCols]

/-- Every drop suggestion for moved columns is rendered as a comment. -/
theorem movedBlock_commented (table_sql qsch : List Char) (nt : NewTable) :
    ∀ e ∈ movedBlock table_sql qsch nt, isPre ("--".data) e = true := by
  intro e he
  simp only [movedBlock] at he
  split at he
  · rcases List.mem_cons.1 he with rfl | he2
    · decide
    · obtain ⟨c, hc, rfl⟩ := List.mem_map.1 he2
      exact isPre_append_of_isPre (isPre_append_of_isPre (isPre_append_of_isPre
        (isPre_append_of_isPre (by decide))))
  · exact absurd he (List.not_mem_nil e)

/-- The whole UNPIVOT template of a 1NF table is rendered as comments. -/
theorem insert1nf_commented (table_sql qsch : List Char) (nt : NewTable) :
    ∀ e ∈ insert1nfBlock table_sql qsch nt, isPre ("--".data) e = true := by
  intro e he
  simp only [insert1nfBlock, List.mem_append, List.mem_cons, List.mem_singleton,
    List.mem_map, List.not_mem_nil, or_false] at he
  rcases he with (((rfl | rfl | rfl | rfl | rfl | rfl) | rfl) | ⟨pr, hpr, rfl⟩) | rfl
  · exact isPre_append_of_isPre (isPre_append_of_isPre (isPre_append_of_isPre (by decide)))
  · decide
  · exact isPre_append_of_isPre (isPre_append_of_isPre (isPre_append_of_isPre
      (isPre_append_of_isPre (by decide))))
  · exact isPre_append_of_isPre (isPre_append_of_isPre (by decide))
  · exact isPre_append_of_isPre (by decide)
  · decide
  · cases hmv : nt.move_from_original with
    | nil => decide
    | cons m mt => exact isPre_append_of_isPre (isPre_append_of_isPre (by decide))
  · exact isPre_append_of_isPre (isPre_append_of_isPre (isPre_append_of_isPre
      (isPre_append_of_isPre (by decide))))
  · decide

/-- Every entry of the foreign-key block over `M`-free identifiers is safe. -/
theorem fkBlock_safe (table_sql qsch : List Char) (nt : NewTable) (fk : FkSpec)
    (hq : okStr qsch) (ht : Mfree table_sql) (hname : Mfree nt.name)
    (hfrom : ∀ c ∈ fk.from_cols, Mfree c) (hto : ∀ c ∈ fk.to_cols, Mfree c) :
    ∀ e ∈ fkBlock table_sql qsch nt fk, okStr e := by
  have hfkn : okStr (safe_name ("FK_".data ++ table_sql ++ ['_'] ++ nt.name)) :=
    okStr_of_Mfree (Mfree_safe (Mfree_append (Mfree_append (Mfree_append
      (by decide) ht) (by decide)) hname))
  have hqo : okStr (qsch ++ ['.'] ++ quote_ident table_sql) :=
    okStr_append (okStr_append hq (by decide)) (okStr_of_Mfree (Mfree_quote ht))
  have hqn : okStr (qsch ++ ['.'] ++ quote_ident nt.name) :=
    okStr_append (okStr_append hq (by decide)) (okStr_of_Mfree (Mfree_quote hname))
  intro e he
  simp only [fkBlock, List.mem_cons, List.mem_singleton, List.not_mem_nil,
    or_false] at he
  rcases he with rfl | rfl | rfl | rfl | rfl | rfl
  · exact okStr_append (okStr_append (by decide) hfkn) (by decide)
  · decide
  · exact okStr_append (by decide) hqo
  · exact okStr_append (okStr_append (okStr_append (okStr_append (by decide) hfkn)
      (by decide)) (okStr_join (by decide) (fun x hx => by
        obtain ⟨c, hc, rfl⟩ := List.mem_map.1 hx
        exact okStr_of_Mfree (Mfree_quote (hfrom c hc))))) (by decide)
  · exact okStr_append (okStr_append (okStr_append (okStr_append (by decide) hqn)
      (by decide)) (okStr_join (by decide) (fun x hx => by
        obtain ⟨c, hc, rfl⟩ := List.mem_map.1 hx
        exact okStr_of_Mfree (Mfree_quote (hto c hc))))) (by decide)
  · decide

/-- Every line of the generated `CREATE TABLE` column list is safe. -/
theorem createColLines_ok {name : List Char} {cols : List (Name × List Char)}
    {pk : List Name} (hname : Mfree name)
    (hcols : ∀ p ∈ cols, Mfree p.1 ∧ Mfree p.2) (hpk : ∀ c ∈ pk, Mfree c) :
    ∀ x ∈ createColLines name cols pk, okStr x := by
  intro x hx
  simp only [createColLines, List.mem_append, List.mem_map] at hx
  rcases hx with ⟨p, hp, rfl⟩ | hx
  · exact okStr_append (okStr_append (okStr_append (by decide)
      (okStr_of_Mfree (Mfree_quote (hcols p hp).1))) (by decide))
      (okStr_of_Mfree (hcols p hp).2)
  · split at hx
    · simp only [List.mem_singleton] at hx
      subst hx
      exact okStr_append (okStr_append (okStr_append (okStr_append (by decide)
        (okStr_of_Mfree (Mfree_safe (Mfree_append (by decide) hname))))
        (by decide))
        (okStr_join (by decide) (fun y hy => by
          obtain ⟨c, hc, rfl⟩ := List.mem_map.1 hy
          exact okStr_of_Mfree (Mfree_quote (hpk c hc))))) (by decide)
    · exact absurd hx (List.not_mem_nil x)

/-- Every entry of the non-1NF insert block is a comment or safe. -/
theorem insertBlock_safe (schema table_sql : List Char) (orig : List Name)
    (qsch : List Char) (nt : NewTable) (hq : okStr qsch) (ht : Mfree table_sql)
    (hname : Mfree nt.name) (hcolsF : ∀ p ∈ nt.cols, Mfree p.1) :
    ∀ e ∈ insertBlock schema table_sql orig qsch nt,
      isPre ("--".data) e = true ∨ okStr e := by
  have hqn : okStr (qsch ++ ['.'] ++ quote_ident nt.name) :=
    okStr_append (okStr_append hq (by decide)) (okStr_of_Mfree (Mfree_quote hname))
  have hqo : okStr (qsch ++ ['.'] ++ quote_ident table_sql) :=
    okStr_append (okStr_append hq (by decide)) (okStr_of_Mfree (Mfree_quote ht))
  intro e he
  simp only [insertBlock] at he
  split at he
  · simp only [List.mem_cons, List.mem_singleton, List.not_mem_nil, or_false] at he
    rcases he with rfl | rfl | rfl
    · refine Or.inr ?_
      exact okStr_append (okStr_append (okStr_append (okStr_append (by decide) hqn)
        (by decide)) (okStr_join (by decide) (fun x hx => by
          obtain ⟨p, hp, rfl⟩ := List.mem_map.1 hx
          exact okStr_of_Mfree (Mfree_quote (hcolsF p hp))))) (by decide)
    · refine Or.inr ?_
      exact okStr_append (by decide) (okStr_join (by decide) (fun x hx => by
        obtain ⟨c, hc, rfl⟩ := List.mem_map.1 hx
        have hc2 : c ∈ nt.cols.map Prod.fst := List.mem_of_mem_filter hc
        obtain ⟨p, hp, rfl⟩ := List.mem_map.1 hc2
        exact okStr_of_Mfree (Mfree_quote (hcolsF p hp))))
    · exact Or.inr (okStr_append (okStr_append (by decide) hqo) (by decide))
  · simp only [List.mem_cons, List.mem_singleton, List.not_mem_nil, or_false] at he
    rcases he with rfl | rfl | rfl
    · exact Or.inl (isPre_append_of_isPre (isPre_append_of_isPre (by decide)))
    · exact Or.inl (isPre_append_of_isPre (isPre_append_of_isPre
        (isPre_append_of_isPre (by decide))))
    · exact Or.inl (by decide)

/-- Every entry rendered for one planned table over `M`-free identifiers is
a comment or safe. -/
theorem renderNewTable_safe (schema table_sql : List Char) (orig : List Name)
    (nt : NewTable) (hs : Mfree schema) (ht : Mfree table_sql)
    (hnt : ntMfree nt) :
    ∀ e ∈ renderNewTable schema table_sql orig nt,
      isPre ("--".data) e = true ∨ okStr e := by
  obtain ⟨hsrc, hname, hcols, hpk, hfk⟩ := hnt
  have hq : okStr (quote_ident schema) := okStr_of_Mfree (Mfree_quote hs)
  intro e he
  simp only [renderNewTable, List.mem_append, List.mem_cons, List.mem_singleton,
    List.not_mem_nil, or_false] at he
  rcases he with (((((rfl | hc) | rfl | rfl | rfl | rfl) | hins) | hfkm) | hmov) | rfl
  · exact Or.inr (okStr_append (okStr_append (by decide) (okStr_of_Mfree hsrc))
      (by decide))
  · split at hc
    · simp only [List.mem_singleton] at hc
      subst hc
      exact Or.inl (isPre_append_of_isPre (by decide))
    · exact absurd hc (List.not_mem_nil e)
  · exact Or.inr (okStr_append (okStr_append (by decide)
      (okStr_append (okStr_append (okStr_of_Mfree hs) (by decide))
        (okStr_of_Mfree hname))) (by decide))
  · exact Or.inr (by decide)
  · refine Or.inr ?_
    exact okStr_append (okStr_append (okStr_append (okStr_append (by decide)
      (okStr_append (okStr_append hq (by decide)) (okStr_of_Mfree (Mfree_quote hname))))
      (by decide)) (okStr_join (by decide) (createColLines_ok hname hcols hpk)))
      (by decide)
  · exact Or.inr (by decide)
  · split at hins
    · exact Or.inl (insert1nf_commented table_sql (quote_ident schema) nt e hins)
    · exact insertBlock_safe schema table_sql orig (quote_ident schema) nt hq ht hname
        (fun p hp => (hcols p hp).1) e hins
  · cases hopt : nt.fk_from_original with
    | none =>
      rw [hopt] at hfkm
      exact absurd hfkm (List.not_mem_nil e)
    | some fk =>
      rw [hopt] at hfkm hfk
      obtain ⟨hfrom, hto⟩ := hfk
      exact Or.inr (fkBlock_safe table_sql (quote_ident schema) nt fk hq ht hname
        hfrom hto e hfkm)
  · exact Or.inl (movedBlock_commented table_sql (quote_ident schema) nt e hmov)
  · exact Or.inr okStr_nil

/-- Every entry of the rendered script over `M`-free identifiers is a
comment or safe. -/
theorem render_sb_safe (schema table_sql : List Char) (plan : Plan)
    (hM : planMfree schema table_sql plan) :
    ∀ e ∈ render_sb schema table_sql plan,
      isPre ("--".data) e = true ∨ okStr e := by
  obtain ⟨hs, ht, hnts⟩ := hM
  intro e he
  simp only [render_sb, List.mem_append] at he
  rcases he with (((hh | hfl) | hdc) | hn) | hf
  · simp only [renderHeader, List.mem_cons, List.mem_singleton, List.not_mem_nil,
      or_false] at hh
    rcases hh with rfl | rfl | rfl | rfl | rfl | rfl
    · exact Or.inl (by decide)
    · exact Or.inl (isPre_append_of_isPre (isPre_append_of_isPre
        (isPre_append_of_isPre (by decide))))
    · exact Or.inl (by decide)
    · exact Or.inl (by decide)
    · exact Or.inr (by decide)
    · exact Or.inr okStr_nil
  · obtain ⟨nt, hnt, hent⟩ := List.mem_flatMap.1 hfl
    exact renderNewTable_safe schema table_sql plan.orig_cols nt hs ht
      (hnts nt hnt) e hent
  · simp only [dropCandBlock] at hdc
    split at hdc
    · simp only [List.mem_cons, List.mem_singleton, List.not_mem_nil, or_false] at hdc
      rcases hdc with rfl | rfl | rfl
      · exact Or.inl (by decide)
      · exact Or.inl (isPre_append_of_isPre (by decide))
      · exact Or.inr okStr_nil
    · exact absurd hdc (List.not_mem_nil e)
  · obtain ⟨n, hn2, rfl⟩ := List.mem_map.1 hn
    exact Or.inl (isPre_append_of_isPre (by decide))
  · simp only [renderFooter, List.mem_cons, List.mem_singleton, List.not_mem_nil,
      or_false] at hf
    rcases hf with rfl | rfl | rfl | rfl | rfl
    · exact Or.inr (by decide)
    · exact Or.inl (by decide)
    · exact Or.inl (by decide)
    · exact Or.inr (by decide)
    · exact Or.inr okStr_nil

/-- The non-1NF insert block of a planned table is rendered into the
script. -/
theorem insertBlock_sub_render (schema table_sql : List Char) (plan : Plan)
    (nt : NewTable) (hnt : nt ∈ plan.new_tables) (hsrc : nt.source ≠ "1NF".data) :
    ∀ e ∈ insertBlock schema table_sql plan.orig_cols (quote_ident schema) nt,
      e ∈ render_sb schema table_sql plan := by
  intro e he
  have h4 : e ∈ (if nt.source = "1NF".data then
      insert1nfBlock table_sql (quote_ident schema) nt
    else insertBlock schema table_sql plan.orig_cols (quote_ident schema) nt) := by
    rw [if_neg hsrc]
    exact he
  have h1 : e ∈ renderNewTable schema table_sql plan.orig_cols nt := by
    simp only [renderNewTable, List.mem_append]
    exact Or.inl (Or.inl (Or.inl (Or.inr h4)))
  have h2 : e ∈ plan.new_tables.flatMap
      (renderNewTable schema table_sql plan.orig_cols) :=
    List.mem_flatMap.2 ⟨nt, hnt, h1⟩
  simp only [render_sb, List.mem_append]
  exact Or.inl (Or.inl (Or.inl (Or.inr h2)))

/-- C7: for every plan over `M`-free identifiers the SQL renderer produces
a complete script whose entry list ends with the fixed footer — the only
active closing statement being `ROLLBACK;`; every entry containing
`COMMIT` and every entry containing `DROP COLUMN` is a `--` comment; and
for every non-1NF planned table the insert block — which is part of the
script — either is a real `INSERT ... SELECT DISTINCT` projecting exactly
the new table's columns, all proven present in the original column set, or,
when some column is missing, consists of three comment lines naming the
missing columns and no `INSERT` statement at all. -/
theorem spec_c7_renderer (schema table_sql : List Char) (plan : Plan)
    (hM : planMfree schema table_sql plan) :
    (render_sb schema table_sql plan =
      (renderHeader schema table_sql ++
        plan.new_tables.flatMap (renderNewTable schema table_sql plan.orig_cols) ++
        dropCandBlock plan ++ plan.notes.map (fun n => "-- Nota: ".data ++ n)) ++
      ["\n-- Si todo es correcto:".data, "-- COMMIT;".data,
       "-- Si hay problemas:".data, "ROLLBACK;".data, []]) ∧
    (∀ e ∈ render_sb schema table_sql plan,
      hasSub ("COMMIT".data) e = true → isPre ("--".data) e = true) ∧
    (∀ e ∈ render_sb schema table_sql plan,
      hasSub ("DROP COLUMN".data) e = true → isPre ("--".data) e = true) ∧
    (∀ nt ∈ plan.new_tables, nt.source ≠ "1NF".data →
      (∀ e ∈ insertBlock schema table_sql plan.orig_cols (quote_ident schema) nt,
        e ∈ render_sb schema table_sql plan) ∧
      (missingCols plan.orig_cols nt = [] →
        insertBlock schema table_sql plan.orig_cols (quote_ident schema) nt =
          ["INSERT INTO ".data ++
             (quote_ident schema ++ ['.'] ++ quote_ident nt.name) ++ " (".data ++
             joinSep (", ".data) (nt.cols.map (fun p => quote_ident p.1)) ++ [')'],
           "SELECT DISTINCT ".data ++
             joinSep (", ".data) ((nt.cols.map Prod.fst).map quote_ident),
           "FROM ".data ++
             (quote_ident schema ++ ['.'] ++ quote_ident table_sql) ++ [';']] ∧
        ∀ c ∈ nt.cols.map Prod.fst, c ∈ plan.orig_cols) ∧
      (missingCols plan.orig_cols nt ≠ [] →
        insertBlock schema table_sql plan.orig_cols (quote_ident schema) nt =
          ["-- No se pudo generar INSERT automático para ".data ++
             (quote_ident schema ++ ['.'] ++ quote_ident nt.name) ++ [':'],
           "-- Columnas no presentes en ".data ++ (schema ++ ['.'] ++ table_sql) ++
             ": ".data ++
             joinSep (", ".data) ((missingCols plan.orig_cols nt).map quote_ident),
           "-- Ajuste manual del INSERT.".data] ∧
        ∀ e ∈ insertBlock schema table_sql plan.orig_cols (quote_ident schema) nt,
          isPre ("--".data) e = true)) := by
  obtain ⟨hs, ht, hnts⟩ := hM
  refine ⟨rfl, ?_, ?_, ?_⟩
  · intro e he hc
    rcases render_sb_safe schema table_sql plan ⟨hs, ht, hnts⟩ e he with h | h
    · exact h
    · exfalso
      have hmm : hasSub ['M', 'M'] e = true := hasSub_trans (by decide) hc
      rw [h.1] at hmm
      cases hmm
  · intro e he hc
    rcases render_sb_safe schema table_sql plan ⟨hs, ht, hnts⟩ e he with h | h
    · exact h
    · exfalso
      have hmn : hasSub ['M', 'N'] e = true := hasSub_trans (by decide) hc
      rw [h.2.1] at hmn
      cases hmn
  · intro nt hnt hsrc
    refine ⟨insertBlock_sub_render schema table_sql plan nt hnt hsrc, ?_, ?_⟩
    · intro hmiss
      have hall : ∀ c ∈ nt.cols.map Prod.fst, c ∈ plan.orig_cols := by
        intro c hc
        have h2 := List.filter_eq_nil_iff.1 hmiss c hc
        simpa using h2
      exact ⟨insertBlock_full_eq schema table_sql plan.orig_cols (quote_ident schema)
        nt hall, hall⟩
    · intro hmiss
      refine ⟨insertBlock_missing_eq schema table_sql plan.orig_cols
        (quote_ident schema) nt hmiss, ?_⟩
      intro e he
      rw [insertBlock_missing_eq schema table_sql plan.orig_cols
        (quote_ident schema) nt hmiss] at he
      simp only [List.mem_cons, List.mem_singleton, List.not_mem_nil, or_false] at he
      rcases he with rfl | rfl | rfl
      · exact isPre_append_of_isPre (isPre_append_of_isPre (by decide))
      · exact isPre_append_of_isPre (isPre_append_of_isPre
          (isPre_append_of_isPre (by decide)))
      · decide

/-- C7 witness: the renderer guarantees at the concrete one-table plan
`w7plan` for `dbo.Orders`. -/
theorem spec_c7_witness :
    planMfree ("dbo".data) ("Orders".data) w7plan ∧
    ((render_sb ("dbo".data) ("Orders".data) w7plan =
      (renderHeader ("dbo".data) ("Orders".data) ++
        w7plan.new_tables.flatMap
          (renderNewTable ("dbo".data) ("Orders".data) w7plan.orig_cols) ++
        dropCandBlock w7plan ++ w7plan.notes.map (fun n => "-- Nota: ".data ++ n)) ++
      ["\n-- Si todo es correcto:".data, "-- COMMIT;".data,
       "-- Si hay problemas:".data, "ROLLBACK;".data, []]) ∧
    (∀ e ∈ render_sb ("dbo".data) ("Orders".data) w7plan,
      hasSub ("COMMIT".data) e = true → isPre ("--".data) e = true) ∧
    (∀ e ∈ render_sb ("dbo".data) ("Orders".data) w7plan,
      hasSub ("DROP COLUMN".data) e = true → isPre ("--".data) e = true) ∧
    (∀ nt ∈ w7plan.new_tables, nt.source ≠ "1NF".data →
      (∀ e ∈ insertBlock ("dbo".data) ("Orders".data) w7plan.orig_cols
          (quote_ident ("dbo".data)) nt,
        e ∈ render_sb ("dbo".data) ("Orders".data) w7plan) ∧
      (missingCols w7plan.orig_cols nt = [] →
        insertBlock ("dbo".data) ("Orders".data) w7plan.orig_cols
            (quote_ident ("dbo".data)) nt =
          ["INSERT INTO ".data ++
             (quote_ident ("dbo".data) ++ ['.'] ++ quote_ident nt.name) ++ " (".data ++
             joinSep (", ".data) (nt.cols.map (fun p => quote_ident p.1)) ++ [')'],
           "SELECT DISTINCT ".data ++
             joinSep (", ".data) ((nt.cols.map Prod.fst).map quote_ident),
           "FROM ".data ++
             (quote_ident ("dbo".data) ++ ['.'] ++ quote_ident ("Orders".data)) ++ [';']] ∧
        ∀ c ∈ nt.cols.map Prod.fst, c ∈ w7plan.orig_cols) ∧
      (missingCols w7plan.orig_cols nt ≠ [] →
        insertBlock ("dbo".data) ("Orders".data) w7plan.orig_cols
            (quote_ident ("dbo".data)) nt =
          ["-- No se pudo generar INSERT automático para ".data ++
             (quote_ident ("dbo".data) ++ ['.'] ++ quote_ident nt.name) ++ [':'],
           "-- Columnas no presentes en ".data ++
             ("dbo".data ++ ['.'] ++ "Orders".data) ++ ": ".data ++
             joinSep (", ".data) ((missingCols w7plan.orig_cols nt).map quote_ident),
           "-- Ajuste manual del INSERT.".data] ∧
        ∀ e ∈ insertBlock ("dbo".data) ("Orders".data) w7plan.orig_cols
            (quote_ident ("dbo".data)) nt,
          isPre ("--".data) e = true))) :=
  ⟨⟨by decide, by decide, fun nt hnt => by
      have he := List.mem_singleton.1 hnt
      subst he
      exact ⟨by decide, by decide, by decide, by decide, ⟨by decide, by decide⟩⟩⟩,
   spec_c7_renderer ("dbo".data) ("Orders".data) w7plan
     ⟨by decide, by decide, fun nt hnt => by
       have he := List.mem_singleton.1 hnt
       subst he
       exact ⟨by decide, by decide, by decide, by decide, ⟨by decide, by decide⟩⟩⟩⟩
